import Mathlib

/-!
Verification development for the rtdppo market-making pipeline.

The C++ sources are embedded shallowly: IEEE-754 doubles are modelled as
rationals (`ℚ`), 64/32/16-bit machine words as natural numbers reduced
modulo the word size where the code masks or casts, exchange/order ids as
`String`, and fallible operations as `Except`/`Option`.  Stateful handlers
become explicit state-passing step functions folded over event lists.
-/

namespace binary_utils

/-- `ZERO_THRESHOLD = 1e-15` from `common/binary_utils.hpp`. -/
def zeroThreshold : ℚ := 1 / 10 ^ 15

/-- `PRICE_FRAC_SCALE = (1ULL << 63) - 1`. -/
def priceFracScale : ℕ := 2 ^ 63 - 1

/-- `ORDERBOOK_FRAC_SCALE = (1ULL << 53) - 1`. -/
def orderbookFracScale : ℕ := 2 ^ 53 - 1

/-- `binary_utils::isZero`: magnitude below the 1e-15 threshold. -/
def isZero (value : ℚ) : Bool := |value| < zeroThreshold

/-- `binary_utils::encodeChangeValue`: 1 sign bit (bit 63) plus
`floor(|value| * (2^63 - 1))` masked to the low 63 bits.  The
`static_cast<uint64_t>` truncation toward zero of a non-negative product is
`Int.toNat ∘ Int.floor`; the `& PRICE_FRAC_MASK` mask is `% 2 ^ 63`. -/
def encodeChangeValue (value : ℚ) : ℕ :=
  if isZero value then 0
  else
    let sign : ℕ := if value < 0 then 1 else 0
    let fraction : ℕ := (⌊|value| * (priceFracScale : ℚ)⌋).toNat % 2 ^ 63
    sign * 2 ^ 63 + fraction

/-- `binary_utils::decodeChangeValue`. -/
def decodeChangeValue (encoded : ℕ) : ℚ :=
  if encoded = 0 then 0
  else
    let fraction : ℕ := encoded % 2 ^ 63
    let value : ℚ := (fraction : ℚ) / (priceFracScale : ℚ)
    if Nat.testBit encoded 63 then -value else value

/-- `binary_utils::encodeOrderBookValue`: 1 sign bit, 10-bit whole part
clamped to 1023, 53-bit fraction scaled by `2^53 - 1`. -/
def encodeOrderBookValue (value : ℚ) : ℕ :=
  if isZero value then 0
  else
    let sign : ℕ := if value < 0 then 1 else 0
    let wholePart : ℕ := (⌊|value|⌋).toNat
    let fracPart : ℚ := |value| - (⌊|value|⌋ : ℚ)
    let wholeInt : ℕ := min wholePart 1023
    let fractionInt : ℕ := (⌊fracPart * (orderbookFracScale : ℚ)⌋).toNat % 2 ^ 53
    sign * 2 ^ 63 + wholeInt % 2 ^ 10 * 2 ^ 53 + fractionInt

/-- `binary_utils::decodeOrderBookValue`. -/
def decodeOrderBookValue (encoded : ℕ) : ℚ :=
  if encoded = 0 then 0
  else
    let whole : ℕ := encoded / 2 ^ 53 % 2 ^ 10
    let fraction : ℕ := encoded % 2 ^ 53
    let value : ℚ := (whole : ℚ) + (fraction : ℚ) / (orderbookFracScale : ℚ)
    if Nat.testBit encoded 63 then -value else value

/-- The 23-byte V2 action frame, one field per byte range of the buffer
(`[0]` action byte, `[1..8]` price word, `[9..16]` volume word,
`[17..20]` mid-price cents, `[21..22]` state id); each little-endian field
is kept as the number it denotes. -/
structure OmsActionFrame where
  actionByte : ℕ
  priceWord : ℕ
  volumeWord : ℕ
  midPriceCents : ℕ
  stateWord : ℕ
  deriving DecidableEq, Repr

/-- `binary_utils::encodeOmsActionV2`: validates the mid-price range,
masks the action type to its low 3 bits, stores the price/volume codec
words, stores `round(mid_price * 100)` as a `u32` and the state id as a
`u16`.  The range throw becomes `Except.error`; `std::round` on the
(validated, hence non-negative) mid-price is `⌊x + 1/2⌋`. -/
def encodeOmsActionV2 (action_type : ℕ) (price volume mid_price : ℚ) (state_id : ℕ) :
    Except String OmsActionFrame :=
  if mid_price < 0 ∨ mid_price > 1000000 then
    .error "Mid-price must be between 0.00 and 1000000.00"
  else
    .ok { actionByte := action_type % 8
          priceWord := encodeChangeValue price
          volumeWord := encodeOrderBookValue volume
          midPriceCents := (⌊mid_price * 100 + 1 / 2⌋).toNat % 2 ^ 32
          stateWord := state_id % 2 ^ 16 }

/-- `binary_utils::decodeOmsActionV2`, returning
`(action_type, price, volume, mid_price, state_id)`. -/
def decodeOmsActionV2 (buf : OmsActionFrame) : ℕ × ℚ × ℚ × ℚ × ℕ :=
  (buf.actionByte % 8,
   decodeChangeValue buf.priceWord,
   decodeOrderBookValue buf.volumeWord,
   (buf.midPriceCents : ℚ) / 100,
   buf.stateWord)

end binary_utils

namespace binary_utils

theorem zeroThreshold_pos : (0 : ℚ) < zeroThreshold := by norm_num [zeroThreshold]

/-- Floor-scaling facts shared by both codecs: for `0 ≤ x ≤ 1` and a positive
scale `S`, the stored word `f = toNat ⌊x * S⌋` satisfies `f ≤ S` and
`f ≤ x * S < f + 1`. -/
theorem scaled_floor_spec (x : ℚ) (S : ℕ) (h0 : 0 ≤ x) (h1 : x ≤ 1) :
    ((⌊x * (S : ℚ)⌋.toNat : ℚ) ≤ x * S ∧ x * S < (⌊x * (S : ℚ)⌋.toNat : ℚ) + 1) ∧
    ⌊x * (S : ℚ)⌋.toNat ≤ S := by
  have hxS : 0 ≤ x * (S : ℚ) := by positivity
  have hfl : 0 ≤ ⌊x * (S : ℚ)⌋ := Int.floor_nonneg.mpr hxS
  have hcast : ((⌊x * (S : ℚ)⌋.toNat : ℤ) : ℚ) = ((⌊x * (S : ℚ)⌋ : ℤ) : ℚ) := by
    exact_mod_cast congrArg (fun z : ℤ => (z : ℚ)) (Int.toNat_of_nonneg hfl)
  refine ⟨⟨?_, ?_⟩, ?_⟩
  · calc ((⌊x * (S : ℚ)⌋.toNat : ℚ)) = ((⌊x * (S : ℚ)⌋ : ℤ) : ℚ) := by exact_mod_cast hcast
    _ ≤ x * S := Int.floor_le _
  · have := Int.lt_floor_add_one (x * (S : ℚ))
    calc x * (S : ℚ) < ((⌊x * (S : ℚ)⌋ : ℤ) : ℚ) + 1 := this
    _ = ((⌊x * (S : ℚ)⌋.toNat : ℚ)) + 1 := by exact_mod_cast congrArg (· + (1:ℚ)) hcast.symm
  · have hle : x * (S : ℚ) ≤ (S : ℚ) := mul_le_of_le_one_left (by positivity) h1
    have : ⌊x * (S : ℚ)⌋ ≤ (S : ℤ) := by
      calc ⌊x * (S : ℚ)⌋ ≤ ⌊((S : ℕ) : ℚ)⌋ := Int.floor_mono hle
      _ = (S : ℤ) := Int.floor_natCast S
    exact Int.toNat_le.mpr this

/-- Behaviour of `encodeChangeValue`/`decodeChangeValue` above the zero
threshold: the word is non-zero, bit 63 carries the sign, and the decoded
value is within `1 / (2^63 - 1)` of the input. -/
theorem decode_encodeChangeValue_of_thresh (v : ℚ) (hv : |v| ≤ 1)
    (ht : zeroThreshold ≤ |v|) :
    encodeChangeValue v ≠ 0 ∧
    Nat.testBit (encodeChangeValue v) 63 = decide (v < 0) ∧
    |decodeChangeValue (encodeChangeValue v) - v| < 1 / (priceFracScale : ℚ) := by
  have habs : (0 : ℚ) ≤ |v| := abs_nonneg v
  have hnz : isZero v = false := by
    simp only [isZero, decide_eq_false_iff_not, not_lt]
    exact ht
  obtain ⟨⟨hf1, hf2⟩, hf3⟩ := scaled_floor_spec |v| priceFracScale habs hv
  set f : ℕ := ⌊|v| * ((priceFracScale : ℕ) : ℚ)⌋.toNat with hfdef
  have hM : (priceFracScale : ℕ) = 2 ^ 63 - 1 := rfl
  have hflt : f < 2 ^ 63 := lt_of_le_of_lt hf3 (by norm_num [hM])
  have hmod : f % 2 ^ 63 = f := Nat.mod_eq_of_lt hflt
  have hMpos : (0 : ℚ) < (priceFracScale : ℚ) := by norm_num [hM]
  have hf_ge1 : 1 ≤ f := by
    have h1 : (1 : ℚ) ≤ |v| * (priceFracScale : ℚ) := by
      calc (1 : ℚ) ≤ zeroThreshold * (priceFracScale : ℚ) := by
            norm_num [zeroThreshold, hM]
      _ ≤ |v| * (priceFracScale : ℚ) := by
            exact mul_le_mul_of_nonneg_right ht (le_of_lt hMpos)
    have : (1 : ℤ) ≤ ⌊|v| * (priceFracScale : ℚ)⌋ := Int.le_floor.mpr (by exact_mod_cast h1)
    omega
  have hinv : (0 : ℚ) < 1 / (priceFracScale : ℚ) := by positivity
  have e1 : (f : ℚ) / (priceFracScale : ℚ) ≤ |v| := by
    rw [div_le_iff₀ hMpos]
    exact hf1
  have e2 : |v| - (f : ℚ) / (priceFracScale : ℚ) < 1 / (priceFracScale : ℚ) := by
    rw [sub_lt_iff_lt_add, div_add_div_same, lt_div_iff₀ hMpos]
    linarith
  have herr : abs ((f : ℚ) / (priceFracScale : ℚ) - |v|) < 1 / (priceFracScale : ℚ) := by
    rw [abs_sub_lt_iff]
    exact ⟨by linarith, e2⟩
  rcases lt_or_le v 0 with hneg | hpos
  · have habsv : |v| = -v := abs_of_neg hneg
    have henc : encodeChangeValue v = 2 ^ 63 + f := by
      simp only [encodeChangeValue, hnz, Bool.false_eq_true, if_false, if_pos hneg, hmod]
      ring
    have htb : Nat.testBit (2 ^ 63 + f) 63 = true := by
      rw [Nat.testBit_to_div_mod]
      simp only [decide_eq_true_eq]
      omega
    refine ⟨by rw [henc]; omega, by rw [henc, htb]; simp [hneg], ?_⟩
    have hfr : (2 ^ 63 + f) % 2 ^ 63 = f := by omega
    have hdec : decodeChangeValue (encodeChangeValue v) = -((f : ℚ) / (priceFracScale : ℚ)) := by
      rw [henc]
      simp only [decodeChangeValue]
      rw [if_neg (by omega : ¬ 2 ^ 63 + f = 0)]
      simp only [hfr, htb, if_true]
    rw [hdec]
    have : -((f : ℚ) / (priceFracScale : ℚ)) - v = -(((f : ℚ) / (priceFracScale : ℚ)) - |v|) := by
      rw [habsv]; ring
    rw [this, abs_neg]
    exact herr
  · have habsv : |v| = v := abs_of_nonneg hpos
    have henc : encodeChangeValue v = f := by
      simp only [encodeChangeValue, hnz, Bool.false_eq_true, if_false,
        if_neg (not_lt.mpr hpos), hmod]
      ring
    have htb : Nat.testBit f 63 = false := Nat.testBit_lt_two_pow hflt
    refine ⟨by rw [henc]; omega, by rw [henc, htb]; simp [not_lt.mpr hpos], ?_⟩
    have hdec : decodeChangeValue (encodeChangeValue v) = (f : ℚ) / (priceFracScale : ℚ) := by
      rw [henc]
      simp only [decodeChangeValue]
      rw [if_neg (by omega : ¬ f = 0)]
      simp only [hmod, htb, Bool.false_eq_true, if_false]
    rw [hdec, ← habsv]
    exact herr

end binary_utils

namespace binary_utils

/-- Within `[-1, 1]` the change word is zero exactly on inputs below the
1e-15 threshold. -/
theorem encodeChangeValue_eq_zero_iff (v : ℚ) (hv : |v| ≤ 1) :
    encodeChangeValue v = 0 ↔ |v| < zeroThreshold := by
  constructor
  · intro h
    by_contra hge
    exact (decode_encodeChangeValue_of_thresh v hv (not_lt.mp hge)).1 h
  · intro h
    simp [encodeChangeValue, isZero, h]

/-- The change codec is accurate to the zero threshold on all of `[-1, 1]`:
inputs at or above the threshold round-trip to within `1/(2^63-1)`, and
inputs below it collapse to zero, which is still within `1e-15`. -/
theorem decode_encodeChangeValue_close (v : ℚ) (hv : |v| ≤ 1) :
    abs (decodeChangeValue (encodeChangeValue v) - v) ≤ zeroThreshold := by
  rcases lt_or_le |v| zeroThreshold with h | h
  · have henc : encodeChangeValue v = 0 := by simp [encodeChangeValue, isZero, h]
    have hdec0 : decodeChangeValue 0 = 0 := rfl
    rw [henc, hdec0, zero_sub, abs_neg]
    exact le_of_lt h
  · have := (decode_encodeChangeValue_of_thresh v hv h).2.2
    calc abs (decodeChangeValue (encodeChangeValue v) - v) ≤ 1 / (priceFracScale : ℚ) :=
          le_of_lt this
    _ ≤ zeroThreshold := by norm_num [priceFracScale, zeroThreshold]

/-- The orderbook codec round-trips values of `[0, 1]` (the
`volume_fraction` range) to within the 1e-15 threshold. -/
theorem decode_encodeOrderBookValue_close (q : ℚ) (h0 : 0 ≤ q) (h1 : q ≤ 1) :
    abs (decodeOrderBookValue (encodeOrderBookValue q) - q) ≤ zeroThreshold := by
  have habs : |q| = q := abs_of_nonneg h0
  rcases lt_or_le q zeroThreshold with hsmall | hbig
  · have henc : encodeOrderBookValue q = 0 := by
      simp [encodeOrderBookValue, isZero, habs, hsmall]
    have hdec0 : decodeOrderBookValue 0 = 0 := rfl
    rw [henc, hdec0, zero_sub, abs_neg, habs]
    exact le_of_lt hsmall
  · -- whole part and fractional part of q
    have hq0 : (0 : ℤ) ≤ ⌊q⌋ := Int.floor_nonneg.mpr h0
    have hq1 : ⌊q⌋ ≤ 1 := by
      calc ⌊q⌋ ≤ ⌊(1 : ℚ)⌋ := Int.floor_mono h1
      _ = 1 := Int.floor_one
    set w : ℕ := (⌊q⌋).toNat with hwdef
    have hwcast : ((w : ℤ) : ℚ) = ((⌊q⌋ : ℤ) : ℚ) := by
      exact_mod_cast congrArg (fun z : ℤ => (z : ℚ)) (Int.toNat_of_nonneg hq0)
    have hw1 : w ≤ 1 := by omega
    have hfrac0 : (0 : ℚ) ≤ q - (⌊q⌋ : ℚ) := by
      have := Int.floor_le q
      linarith
    have hfrac1 : q - (⌊q⌋ : ℚ) < 1 := by
      have := Int.lt_floor_add_one q
      linarith
    obtain ⟨⟨hg1, hg2⟩, hg3⟩ :=
      scaled_floor_spec (q - (⌊q⌋ : ℚ)) orderbookFracScale hfrac0 (le_of_lt hfrac1)
    set g : ℕ := ⌊(q - (⌊q⌋ : ℚ)) * ((orderbookFracScale : ℕ) : ℚ)⌋.toNat with hgdef
    have hS : (orderbookFracScale : ℕ) = 2 ^ 53 - 1 := rfl
    have hSpos : (0 : ℚ) < (orderbookFracScale : ℚ) := by norm_num [hS]
    have hglt : g < 2 ^ 53 := by
      have : g ≤ orderbookFracScale := hg3
      omega
    have hgmod : g % 2 ^ 53 = g := Nat.mod_eq_of_lt hglt
    have henc : encodeOrderBookValue q = w * 2 ^ 53 + g := by
      have hnz : isZero q = false := by
        simp only [isZero, decide_eq_false_iff_not, not_lt, habs]
        exact hbig
      have hmin : min w 1023 = w := by omega
      have hwmod : w % 2 ^ 10 = w := by omega
      simp only [encodeOrderBookValue, hnz, Bool.false_eq_true, if_false,
        if_neg (not_lt.mpr h0), habs, hmin, hwmod, hgmod]
      ring
    have hne : encodeOrderBookValue q ≠ 0 := by
      rw [henc]
      rcases Nat.eq_zero_or_pos w with hw0 | hwpos
      · -- whole part zero: then q < 1, the fractional word is at least 1
        have hfl0 : ⌊q⌋ = 0 := by omega
        have hfq : q - (⌊q⌋ : ℚ) = q := by rw [hfl0]; norm_num
        have h1g : (1 : ℚ) ≤ (q - (⌊q⌋ : ℚ)) * (orderbookFracScale : ℚ) := by
          rw [hfq]
          calc (1 : ℚ) ≤ zeroThreshold * (orderbookFracScale : ℚ) := by
                norm_num [zeroThreshold, hS]
          _ ≤ q * (orderbookFracScale : ℚ) :=
                mul_le_mul_of_nonneg_right hbig (le_of_lt hSpos)
        have : (1 : ℤ) ≤ ⌊(q - (⌊q⌋ : ℚ)) * ((orderbookFracScale : ℕ) : ℚ)⌋ :=
          Int.le_floor.mpr (by exact_mod_cast h1g)
        omega
      · positivity
    have htb : Nat.testBit (w * 2 ^ 53 + g) 63 = false := by
      refine Nat.testBit_lt_two_pow ?_
      have : w * 2 ^ 53 ≤ 2 ^ 53 := by omega
      omega
    have hwhole : (w * 2 ^ 53 + g) / 2 ^ 53 % 2 ^ 10 = w := by omega
    have hfracword : (w * 2 ^ 53 + g) % 2 ^ 53 = g := by omega
    have hdec : decodeOrderBookValue (encodeOrderBookValue q) =
        (w : ℚ) + (g : ℚ) / (orderbookFracScale : ℚ) := by
      rw [henc]
      simp only [decodeOrderBookValue]
      rw [if_neg (by rw [henc] at hne; exact hne)]
      simp only [hwhole, hfracword, htb, Bool.false_eq_true, if_false]
    rw [hdec]
    have hsplit : (w : ℚ) + (g : ℚ) / (orderbookFracScale : ℚ) - q =
        (g : ℚ) / (orderbookFracScale : ℚ) - (q - (⌊q⌋ : ℚ)) := by
      have : ((w : ℚ)) = ((⌊q⌋ : ℤ) : ℚ) := by exact_mod_cast hwcast
      rw [this]
      ring
    rw [hsplit]
    have e1 : (g : ℚ) / (orderbookFracScale : ℚ) ≤ q - (⌊q⌋ : ℚ) := by
      rw [div_le_iff₀ hSpos]
      exact hg1
    have e2 : q - (⌊q⌋ : ℚ) - (g : ℚ) / (orderbookFracScale : ℚ) <
        1 / (orderbookFracScale : ℚ) := by
      rw [sub_lt_iff_lt_add, div_add_div_same, lt_div_iff₀ hSpos]
      linarith
    have : abs ((g : ℚ) / (orderbookFracScale : ℚ) - (q - (⌊q⌋ : ℚ))) ≤
        1 / (orderbookFracScale : ℚ) := by
      rw [abs_sub_le_iff]
      constructor
      · have : (0:ℚ) < 1 / (orderbookFracScale : ℚ) := by positivity
        linarith
      · linarith
    calc abs ((g : ℚ) / (orderbookFracScale : ℚ) - (q - (⌊q⌋ : ℚ))) ≤
          1 / (orderbookFracScale : ℚ) := this
    _ ≤ zeroThreshold := by norm_num [hS, zeroThreshold]

end binary_utils

namespace binary_utils

/-- The stored mid-price cents value recovers the mid-price to half a cent. -/
theorem midPriceCents_close (m : ℚ) (h0 : 0 ≤ m) (h1 : m ≤ 1000000) :
    abs (((⌊m * 100 + 1 / 2⌋.toNat % 2 ^ 32 : ℕ) : ℚ) / 100 - m) ≤ 1 / 100 := by
  have hx0 : (0 : ℚ) ≤ m * 100 + 1 / 2 := by linarith
  have hfl0 : 0 ≤ ⌊m * 100 + 1 / 2⌋ := Int.floor_nonneg.mpr hx0
  have hup : ⌊m * 100 + 1 / 2⌋ ≤ 100000000 := by
    have hcast : ((⌊m * 100 + 1 / 2⌋ : ℤ) : ℚ) ≤ m * 100 + 1 / 2 := Int.floor_le _
    have : ((⌊m * 100 + 1 / 2⌋ : ℤ) : ℚ) < 100000000 + 1 := by linarith
    exact_mod_cast Int.lt_add_one_iff.mp (by exact_mod_cast this)
  have hmod : ⌊m * 100 + 1 / 2⌋.toNat % 2 ^ 32 = ⌊m * 100 + 1 / 2⌋.toNat :=
    Nat.mod_eq_of_lt (by omega)
  rw [hmod]
  have hcast : ((⌊m * 100 + 1 / 2⌋.toNat : ℕ) : ℚ) = ((⌊m * 100 + 1 / 2⌋ : ℤ) : ℚ) := by
    exact_mod_cast congrArg (fun z : ℤ => (z : ℚ)) (Int.toNat_of_nonneg hfl0)
  rw [hcast]
  have hle : ((⌊m * 100 + 1 / 2⌋ : ℤ) : ℚ) ≤ m * 100 + 1 / 2 := Int.floor_le _
  have hgt : m * 100 + 1 / 2 - 1 < ((⌊m * 100 + 1 / 2⌋ : ℤ) : ℚ) := Int.sub_one_lt_floor _
  rw [abs_sub_le_iff]
  constructor
  · rw [div_sub' _ _ _ (by norm_num : (100 : ℚ) ≠ 0)]
    rw [div_le_div_iff₀ (by norm_num) (by norm_num : (0:ℚ) < 100)]
    linarith
  · rw [sub_div' _ _ _ (by norm_num : (100 : ℚ) ≠ 0)]
    rw [div_le_div_iff₀ (by norm_num) (by norm_num : (0:ℚ) < 100)]
    linarith

/-- C6 (counterexample): at `v = -1e-16` — inside `[-1, 1]`, negative — the
encoder collapses to the word `0` because `|v|` is below the 1e-15 zero
threshold, so bit 63 is *not* set and the round-trip error is `1e-16`,
which exceeds the claimed bound `2⁻⁶²`. -/
theorem change_codec_claim_counterexample :
    (-1 ≤ (-1 : ℚ) / 10 ^ 16 ∧ (-1 : ℚ) / 10 ^ 16 ≤ 1 ∧ (-1 : ℚ) / 10 ^ 16 < 0) ∧
    encodeChangeValue ((-1 : ℚ) / 10 ^ 16) = 0 ∧
    Nat.testBit (encodeChangeValue ((-1 : ℚ) / 10 ^ 16)) 63 = false ∧
    ¬ abs (decodeChangeValue (encodeChangeValue ((-1 : ℚ) / 10 ^ 16)) -
        (-1 : ℚ) / 10 ^ 16) ≤ 1 / 2 ^ 62 := by
  with_unfolding_all decide

/-- C6 (amended): for `v ∈ [-1, 1]` *at or above the 1e-15 zero threshold*
the round-trip error of the change codec is at most `2⁻⁶²` and negative
inputs set bit 63; `encode_change 0 = 0`; and the word is `0` exactly when
`|v| < 1e-15`.  (The claim as frozen asserted the error bound and the sign
bit for the whole interval, which fails below the threshold.) -/
theorem change_codec_roundtrip (v : ℚ) (h₁ : -1 ≤ v) (h₂ : v ≤ 1) :
    (zeroThreshold ≤ |v| →
      abs (decodeChangeValue (encodeChangeValue v) - v) ≤ 1 / 2 ^ 62 ∧
      (v < 0 → Nat.testBit (encodeChangeValue v) 63 = true)) ∧
    encodeChangeValue 0 = 0 ∧
    (encodeChangeValue v = 0 ↔ |v| < zeroThreshold) := by
  have hv : |v| ≤ 1 := abs_le.mpr ⟨h₁, h₂⟩
  refine ⟨?_, ?_, encodeChangeValue_eq_zero_iff v hv⟩
  · intro ht
    obtain ⟨-, hsign, herr⟩ := decode_encodeChangeValue_of_thresh v hv ht
    refine ⟨?_, fun hneg => by rw [hsign]; simp [hneg]⟩
    calc abs (decodeChangeValue (encodeChangeValue v) - v) ≤ 1 / (priceFracScale : ℚ) :=
          le_of_lt herr
    _ ≤ 1 / 2 ^ 62 := by norm_num [priceFracScale]
  · have : isZero (0 : ℚ) = true := by
      simp [isZero, zeroThreshold]
    simp [encodeChangeValue, this]

/-- Witness for `change_codec_roundtrip` at `v = 1/2`. -/
theorem change_codec_roundtrip_witness :
    (-1 ≤ (1 : ℚ) / 2 ∧ (1 : ℚ) / 2 ≤ 1) ∧
    ((zeroThreshold ≤ |(1 : ℚ) / 2| →
      abs (decodeChangeValue (encodeChangeValue ((1 : ℚ) / 2)) - (1 : ℚ) / 2) ≤ 1 / 2 ^ 62 ∧
      ((1 : ℚ) / 2 < 0 → Nat.testBit (encodeChangeValue ((1 : ℚ) / 2)) 63 = true)) ∧
    encodeChangeValue 0 = 0 ∧
    (encodeChangeValue ((1 : ℚ) / 2) = 0 ↔ |(1 : ℚ) / 2| < zeroThreshold)) :=
  ⟨⟨by norm_num, by norm_num⟩,
   change_codec_roundtrip ((1 : ℚ) / 2) (by norm_num) (by norm_num)⟩

/-- C7 (confirmed): for every action tuple `(k < 8, p ∈ [-1,1], q ∈ [0,1],
m ∈ [0, 1_000_000], s < 2¹⁶)` the 23-byte V2 encoding decodes back to `k`
and `s` exactly, `p` and `q` to codec precision (the codec's documented
1e-15 threshold), and `m` to within `0.01`; and encoding any mid-price
outside `[0, 1_000_000]` raises the range error instead of producing a
frame. -/
theorem oms_action_v2_roundtrip (k : ℕ) (p q m : ℚ) (s : ℕ)
    (hk : k < 8) (hp₁ : -1 ≤ p) (hp₂ : p ≤ 1) (hq₁ : 0 ≤ q) (hq₂ : q ≤ 1)
    (hm₁ : 0 ≤ m) (hm₂ : m ≤ 1000000) (hs : s < 2 ^ 16) :
    (∃ buf, encodeOmsActionV2 k p q m s = .ok buf ∧
      (decodeOmsActionV2 buf).1 = k ∧
      abs ((decodeOmsActionV2 buf).2.1 - p) ≤ zeroThreshold ∧
      abs ((decodeOmsActionV2 buf).2.2.1 - q) ≤ zeroThreshold ∧
      abs ((decodeOmsActionV2 buf).2.2.2.1 - m) ≤ 1 / 100 ∧
      (decodeOmsActionV2 buf).2.2.2.2 = s) ∧
    (∀ m' : ℚ, m' < 0 ∨ 1000000 < m' →
      encodeOmsActionV2 k p q m' s =
        .error "Mid-price must be between 0.00 and 1000000.00") := by
  constructor
  · have hok : encodeOmsActionV2 k p q m s =
        .ok { actionByte := k % 8
              priceWord := encodeChangeValue p
              volumeWord := encodeOrderBookValue q
              midPriceCents := (⌊m * 100 + 1 / 2⌋).toNat % 2 ^ 32
              stateWord := s % 2 ^ 16 } := by
      rw [encodeOmsActionV2, if_neg]
      push_neg
      exact ⟨hm₁, hm₂⟩
    refine ⟨_, hok, ?_, ?_, ?_, ?_, ?_⟩
    · simp only [decodeOmsActionV2]
      omega
    · simpa only [decodeOmsActionV2] using
        decode_encodeChangeValue_close p (abs_le.mpr ⟨hp₁, hp₂⟩)
    · simpa only [decodeOmsActionV2] using decode_encodeOrderBookValue_close q hq₁ hq₂
    · simpa only [decodeOmsActionV2] using midPriceCents_close m hm₁ hm₂
    · simp only [decodeOmsActionV2]
      omega
  · intro m' hm'
    rw [encodeOmsActionV2, if_pos]
    rcases hm' with h | h
    · exact Or.inl h
    · exact Or.inr h

/-- Witness for `oms_action_v2_roundtrip` at
`(k, p, q, m, s) = (3, 1/2, 1/3, 30000, 77)`. -/
theorem oms_action_v2_roundtrip_witness :
    ((3 : ℕ) < 8 ∧ -1 ≤ (1 : ℚ) / 2 ∧ (1 : ℚ) / 2 ≤ 1 ∧ (0 : ℚ) ≤ 1 / 3 ∧
      (1 : ℚ) / 3 ≤ 1 ∧ (0 : ℚ) ≤ 30000 ∧ (30000 : ℚ) ≤ 1000000 ∧ (77 : ℕ) < 2 ^ 16) ∧
    ((∃ buf, encodeOmsActionV2 3 (1 / 2) (1 / 3) 30000 77 = .ok buf ∧
      (decodeOmsActionV2 buf).1 = 3 ∧
      abs ((decodeOmsActionV2 buf).2.1 - 1 / 2) ≤ zeroThreshold ∧
      abs ((decodeOmsActionV2 buf).2.2.1 - 1 / 3) ≤ zeroThreshold ∧
      abs ((decodeOmsActionV2 buf).2.2.2.1 - 30000) ≤ 1 / 100 ∧
      (decodeOmsActionV2 buf).2.2.2.2 = 77) ∧
    (∀ m' : ℚ, m' < 0 ∨ 1000000 < m' →
      encodeOmsActionV2 3 (1 / 2) (1 / 3) m' 77 =
        .error "Mid-price must be between 0.00 and 1000000.00")) :=
  ⟨⟨by norm_num, by norm_num, by norm_num, by norm_num, by norm_num, by norm_num,
    by norm_num, by norm_num⟩,
   oms_action_v2_roundtrip 3 (1 / 2) (1 / 3) 30000 77 (by norm_num) (by norm_num)
     (by norm_num) (by norm_num) (by norm_num) (by norm_num) (by norm_num) (by norm_num)⟩

end binary_utils

namespace oms_service

/-- Inputs that can touch the `maxdd_` atomic of `OKXWebSocket`: a parsed
`uplRatio` from a position-channel frame for the tracked instrument, or a
trade closure in the Lifecycle engine.  The source writes `maxdd_` only in
`handle_position_update`; no code path writes it on closure. -/
inductive PositionEvent where
  | positionUpdate (upl : ℚ)
  | tradeClosure
  deriving DecidableEq, Repr

/-- `OKXWebSocket::handle_position_update` (maxdd part): update only when
the observed ratio is negative and strictly below the stored value. -/
def handle_position_update (maxdd : ℚ) (upl : ℚ) : ℚ :=
  if upl < 0 then (if upl < maxdd then upl else maxdd) else maxdd

/-- One event against the `maxdd_` cell.  `tradeClosure` is the identity
because no statement in the source writes `maxdd_` outside
`handle_position_update`. -/
def maxddStep (maxdd : ℚ) : PositionEvent → ℚ
  | .positionUpdate upl => handle_position_update maxdd upl
  | .tradeClosure => maxdd

/-- The `maxdd_` value after a run of events, started from its initialiser
`0.0`. -/
def runMaxdd (evs : List PositionEvent) : ℚ := evs.foldl maxddStep 0

/-- C8 (counterexample): a drawdown of `-1/10` observed during a trade
survives the trade's closure — `maxdd_` is never reset to zero on flat, so
the next trade's reward adjustment still sees the old drawdown. -/
theorem maxdd_not_reset_counterexample :
    runMaxdd [.positionUpdate (-1 / 10), .tradeClosure] = -1 / 10 ∧
    (-1 / 10 : ℚ) ≠ 0 := by
  constructor
  · show maxddStep (maxddStep 0 (.positionUpdate (-1 / 10))) .tradeClosure = -1 / 10
    norm_num [maxddStep, handle_position_update]
  · norm_num

/-- C8 (amended): `maxdd` is monotone non-increasing, it changes only when
a position update reports a ratio that is both negative and strictly below
the stored value (in which case it becomes that ratio), and a trade
closure never changes it — in particular it is *not* reset to zero on
flat. -/
theorem maxdd_update_discipline (maxdd : ℚ) (ev : PositionEvent) :
    maxddStep maxdd ev ≤ maxdd ∧
    (maxddStep maxdd ev ≠ maxdd →
      ∃ upl, ev = .positionUpdate upl ∧ upl < 0 ∧ upl < maxdd ∧
        maxddStep maxdd ev = upl) ∧
    maxddStep maxdd .tradeClosure = maxdd := by
  refine ⟨?_, ?_, rfl⟩
  · cases ev with
    | tradeClosure => exact le_refl _
    | positionUpdate upl =>
        simp only [maxddStep, handle_position_update]
        split
        · split
          · linarith
          · exact le_refl _
        · exact le_refl _
  · intro hne
    cases ev with
    | tradeClosure => exact absurd rfl hne
    | positionUpdate upl =>
        refine ⟨upl, rfl, ?_⟩
        simp only [maxddStep, handle_position_update] at hne ⊢
        by_cases h1 : upl < 0
        · by_cases h2 : upl < maxdd
          · simp [h1, h2]
          · simp [h1, h2] at hne
        · simp [h1] at hne

/-- Witness for `maxdd_update_discipline`: a `-1` ratio against a flat
`maxdd = 0` does change the stored value. -/
theorem maxdd_update_discipline_witness :
    maxddStep 0 (.positionUpdate (-1)) ≠ (0 : ℚ) ∧
    (maxddStep 0 (.positionUpdate (-1)) ≤ (0 : ℚ) ∧
    (maxddStep 0 (.positionUpdate (-1)) ≠ (0 : ℚ) →
      ∃ upl, PositionEvent.positionUpdate (-1) = .positionUpdate upl ∧ upl < 0 ∧
        upl < (0 : ℚ) ∧ maxddStep 0 (.positionUpdate (-1)) = upl) ∧
    maxddStep (0 : ℚ) .tradeClosure = 0) :=
  ⟨by norm_num [maxddStep, handle_position_update],
   maxdd_update_discipline 0 (.positionUpdate (-1))⟩

end oms_service

namespace ppo_service

/-- `HISTORY_BUFFER_SIZE` in `ppo_handler.hpp`. -/
def HISTORY_BUFFER_SIZE : ℕ := 1000

/-- `NETWORK_INPUT_SIZE` (the 80-frame decision window). -/
def NETWORK_INPUT_SIZE : ℕ := 80

/-- `EXPLORATION_PERIOD` in `PPOHandler::forwardPass`. -/
def EXPLORATION_PERIOD : ℕ := 1000

/-- One received feature frame, reduced to the data the decision gate
reads: the 16-bit state id from the frame tail and the actor network's
price output on the window ending at this frame (the network itself is the
black-box decision function). -/
structure PPOFrame where
  state_id : ℕ
  actorPrice : ℚ
  deriving DecidableEq, Repr

/-- A published action: the (possibly negated) price offset and the state
id it is tagged with. -/
structure PPODecision where
  price : ℚ
  state_id : ℕ
  deriving DecidableEq, Repr

/-- `PPOHandler` state relevant to the gate: `state_counter_` and the ids
of the buffered frames (oldest first). -/
structure PPOState where
  state_counter : ℕ
  state_buffer : List ℕ
  deriving DecidableEq, Repr

/-- `PPOHandler::handleMessage` followed by `forwardPass`: pop the oldest
frame at capacity, push the new frame, increment `state_counter_`, and if
at least 80 frames are buffered and the newest state id has even parity,
emit a decision whose price is negated when `state_counter_ <
EXPLORATION_PERIOD` and the coin (`rand() % 2 == 0`) says so. -/
def handleMessage (s : PPOState) (frame : PPOFrame) (coin : Bool) :
    PPOState × Option PPODecision :=
  let buf := (if HISTORY_BUFFER_SIZE ≤ s.state_buffer.length then s.state_buffer.tail
              else s.state_buffer) ++ [frame.state_id]
  (⟨s.state_counter + 1, buf⟩,
   if NETWORK_INPUT_SIZE ≤ buf.length ∧ frame.state_id % 2 = 0 then
     some ⟨if s.state_counter + 1 < EXPLORATION_PERIOD ∧ coin then -frame.actorPrice
           else frame.actorPrice, frame.state_id⟩
   else none)

/-- Fold step of a handler run, accumulating the published decisions. -/
def runStep (acc : PPOState × List PPODecision) (fc : PPOFrame × Bool) :
    PPOState × List PPODecision :=
  let sd := handleMessage acc.1 fc.1 fc.2
  (sd.1, acc.2 ++ sd.2.toList)

/-- A run of the handler on a frame/coin trace from the initial state
(`state_counter_ = 0`, empty buffer). -/
def runPPO (frames : List (PPOFrame × Bool)) : PPOState × List PPODecision :=
  frames.foldl runStep (⟨0, []⟩, [])

/-- Folding odd-parity frames produces no decision and just counts them. -/
theorem runPPO_odd_replicate (n : ℕ) (hn : n ≤ 999) :
    runPPO (List.replicate n ((⟨1, 1⟩ : PPOFrame), true)) =
      (⟨n, List.replicate n 1⟩, []) := by
  induction n with
  | zero => rfl
  | succ k ih =>
      have hk : k ≤ 999 := by omega
      rw [List.replicate_succ']
      unfold runPPO at ih ⊢
      rw [List.foldl_append, ih hk, List.foldl_cons, List.foldl_nil]
      have hnotfull : ¬ HISTORY_BUFFER_SIZE ≤ (List.replicate k (1 : ℕ)).length := by
        rw [List.length_replicate]
        simp only [HISTORY_BUFFER_SIZE]
        omega
      simp only [runStep, handleMessage, hnotfull, if_false]
      simp [List.replicate_succ']

/-- C9 (counterexample): feed 999 odd-parity frames (no decision fires),
then an even-parity frame with actor price `1` and exploration coin
`true`.  The resulting run publishes exactly one decision — the first
decision of the whole run, hence among the first 1000 decisions — and its
price is the actor output `1`, not `-1`: the 50% negation was skipped
because the gate counts received frames (`state_counter_`), which already
reached 1000, not decisions. -/
theorem exploration_gate_counterexample :
    (runPPO (List.replicate 999 ((⟨1, 1⟩ : PPOFrame), true) ++
      [((⟨2, 1⟩ : PPOFrame), true)])).2 = [⟨1, 2⟩] ∧ (1 : ℚ) ≠ -1 := by
  constructor
  · unfold runPPO
    rw [List.foldl_append]
    have h999 := runPPO_odd_replicate 999 (by norm_num)
    unfold runPPO at h999
    rw [h999, List.foldl_cons, List.foldl_nil]
    have hnotfull : ¬ HISTORY_BUFFER_SIZE ≤ (List.replicate 999 (1 : ℕ)).length := by
      rw [List.length_replicate]
      simp [HISTORY_BUFFER_SIZE]
    simp only [runStep, handleMessage, hnotfull, if_false]
    have hlen : NETWORK_INPUT_SIZE ≤ (List.replicate 999 (1 : ℕ) ++ [2]).length := by
      rw [List.length_append, List.length_replicate]
      norm_num [NETWORK_INPUT_SIZE]
    rw [if_pos (⟨hlen, trivial⟩ : _ ∧ True)]
    norm_num [EXPLORATION_PERIOD]
  · norm_num

/-- C9 (amended): the 50% price-offset negation is gated on the count of
*received feature frames* (`state_counter_`), not on the count of
decisions: a decision produced once at least `EXPLORATION_PERIOD` (=1000)
frames have been received passes the actor's price through verbatim, and a
decision produced earlier is negated exactly when the coin says so.  The
decision always carries the triggering frame's state id. -/
theorem exploration_gate_frame_counter (s : PPOState) (frame : PPOFrame) (coin : Bool)
    (d : PPODecision) (h : (handleMessage s frame coin).2 = some d) :
    (EXPLORATION_PERIOD ≤ s.state_counter + 1 → d.price = frame.actorPrice) ∧
    (s.state_counter + 1 < EXPLORATION_PERIOD →
      d.price = if coin then -frame.actorPrice else frame.actorPrice) ∧
    d.state_id = frame.state_id := by
  simp only [handleMessage] at h
  have hpd : (if s.state_counter + 1 < EXPLORATION_PERIOD ∧ coin then -frame.actorPrice
      else frame.actorPrice) = d.price ∧ frame.state_id = d.state_id := by
    split at h
    · split at h
      · rw [Option.some.injEq] at h
        exact ⟨congrArg PPODecision.price h, congrArg PPODecision.state_id h⟩
      · simp at h
    · split at h
      · rw [Option.some.injEq] at h
        exact ⟨congrArg PPODecision.price h, congrArg PPODecision.state_id h⟩
      · simp at h
  obtain ⟨hp, hsid⟩ := hpd
  refine ⟨?_, ?_, hsid.symm⟩
  · intro hge
    rw [← hp, if_neg]
    rintro ⟨hlt, -⟩
    omega
  · intro hlt
    rw [← hp]
    cases coin with
    | true => simp [hlt]
    | false => simp

/-- Witness for `exploration_gate_frame_counter`: a full buffer, frame
counter already past the exploration period, coin `true` — the decision
fires and passes the price through. -/
theorem exploration_gate_frame_counter_witness :
    (handleMessage ⟨1500, List.replicate 80 0⟩ ⟨0, 5⟩ true).2 =
      some (⟨5, 0⟩ : PPODecision) ∧
    ((EXPLORATION_PERIOD ≤ 1500 + 1 → (⟨5, 0⟩ : PPODecision).price = (5 : ℚ)) ∧
     (1500 + 1 < EXPLORATION_PERIOD →
       (⟨5, 0⟩ : PPODecision).price = if true then -(5 : ℚ) else (5 : ℚ)) ∧
     (⟨5, 0⟩ : PPODecision).state_id = 0) :=
  ⟨rfl, exploration_gate_frame_counter ⟨1500, List.replicate 80 0⟩ ⟨0, 5⟩ true ⟨5, 0⟩ rfl⟩

end ppo_service

namespace oms_service

/-- `OrderInfo::FillPortion` from `okx_websocket.hpp`.  The C++ field
`execution_percentage` has no default initializer; the code paths that
leave it unset are modelled with 0. -/
structure FillPortion where
  tradeId : String := ""
  size : ℚ := 0
  price : ℚ := 0
  timestamp : ℤ := 0
  is_closing : Bool := false
  execution_percentage : ℚ := 0
  deriving DecidableEq, Repr

/-- `OrderInfo` from `okx_websocket.hpp`. -/
structure OrderInfo where
  state_id : ℕ := 0
  volume : ℚ := 0
  price : ℚ := 0
  okx_order_id : String := ""
  has_okx_id : Bool := false
  filled_size : ℚ := 0
  cumulative_filled_size : ℚ := 0
  avg_fill_price : ℚ := 0
  is_filled : Bool := false
  execution_percentage : ℚ := 0
  order_state : String := ""
  side : String := ""
  tradeId : String := ""
  fill_time : ℤ := 0
  fill_portions : List FillPortion := []
  deriving DecidableEq, Repr

/-- `Trade` from `oms_handler.hpp`.  `maxdd` and `cumulative_reward` have
no default initializer in the C++ struct; the `OMSHandler` constructor
zeroes them and the reset path re-runs the default constructor, so they
are modelled with 0. -/
structure Trade where
  has_active_trade : Bool := false
  is_long : Bool := false
  size : ℚ := 0
  maxdd : ℚ := 0
  cumulative_reward : ℚ := 0
  total_size : ℚ := 0
  tradeId : String := ""
  orders : List OrderInfo := []
  buy_side_cumulative_price : ℚ := 0
  buy_side_total_size : ℚ := 0
  sell_side_cumulative_price : ℚ := 0
  sell_side_total_size : ℚ := 0
  deriving DecidableEq, Repr

/-- `Trade::get_avg_buy_price`. -/
def Trade.get_avg_buy_price (t : Trade) : ℚ :=
  if t.buy_side_total_size > 0 then t.buy_side_cumulative_price / t.buy_side_total_size
  else 0

/-- `Trade::get_avg_sell_price`. -/
def Trade.get_avg_sell_price (t : Trade) : ℚ :=
  if t.sell_side_total_size > 0 then t.sell_side_cumulative_price / t.sell_side_total_size
  else 0

/-- One buffered/dispatched fill event: the arguments of the
`order_fill_callback` (`filled_size` is the exchange's *cumulative* filled
size). -/
structure FillEvent where
  okx_order_id : String
  filled_size : ℚ
  avg_price : ℚ
  side : String
  state : String
  pnl : ℚ
  fill_time : ℤ
  deriving DecidableEq, Repr

/-- `std::sort(orders_.begin(), orders_.end(), fill_time <)` produces an
order non-decreasing in `fill_time`; modelled with the stable
`List.mergeSort` on the reflexive closure of the comparator. -/
def sortByFillTime (orders : List OrderInfo) : List OrderInfo :=
  orders.mergeSort fun a b => a.fill_time ≤ b.fill_time

/-- The `recovered_order` built in `order_fill_callback` for a late fill of
a cancellation-queued order (part_000 lines 82-94). -/
def recoveredOrder (sid : ℕ) (ev : FillEvent) : OrderInfo :=
  { state_id := sid
    okx_order_id := ev.okx_order_id
    has_okx_id := true
    side := ev.side
    filled_size := ev.filled_size
    avg_fill_price := ev.avg_price
    is_filled := ev.state == "filled"
    order_state := ev.state
    volume := ev.filled_size
    price := ev.avg_price
    execution_percentage := 1
    fill_time := ev.fill_time }

/-- Step 1 (recognition) of `order_fill_callback`: look the exchange id up
in `known_orders_`; when known but absent from the active deque and the
reported fill is positive, re-insert a recovered order and re-sort the
deque by fill time; when unknown in the map, fall back to scanning the
deque and record the id.  Returns `(state id when recognized, deque,
known-orders map)`. -/
def recognizeFill (known_orders : List (String × ℕ)) (deque : List OrderInfo)
    (ev : FillEvent) :
    Option ℕ × List OrderInfo × List (String × ℕ) :=
  match known_orders.lookup ev.okx_order_id with
  | some sid =>
      if deque.any fun o => o.okx_order_id == ev.okx_order_id then
        (some sid, deque, known_orders)
      else if ev.filled_size > 0 then
        (some sid, sortByFillTime (deque ++ [recoveredOrder sid ev]), known_orders)
      else (some sid, deque, known_orders)
  | none =>
      match deque.find? fun o => o.okx_order_id == ev.okx_order_id with
      | some o => (some o.state_id, deque, (ev.okx_order_id, o.state_id) :: known_orders)
      | none => (none, deque, known_orders)

/-- C10 (confirmed): a fill for an exchange id that is in the known-orders
map but not in the active deque, with positive reported size, re-inserts
exactly one recovered order into the deque; the deque is then sorted by
`fill_time`, and the recovered order carries `volume = cumulative filled
size`, `price = average fill price` and `execution_percentage = 1`. -/
theorem late_fill_recovery (known_orders : List (String × ℕ)) (deque : List OrderInfo)
    (ev : FillEvent) (sid : ℕ)
    (hk : known_orders.lookup ev.okx_order_id = some sid)
    (hd : (deque.any fun o => o.okx_order_id == ev.okx_order_id) = false)
    (hf : 0 < ev.filled_size) :
    (recognizeFill known_orders deque ev).2.1.Perm (recoveredOrder sid ev :: deque) ∧
    (recognizeFill known_orders deque ev).2.1.Pairwise
      (fun a b => a.fill_time ≤ b.fill_time) ∧
    recoveredOrder sid ev ∈ (recognizeFill known_orders deque ev).2.1 ∧
    (recoveredOrder sid ev).volume = ev.filled_size ∧
    (recoveredOrder sid ev).price = ev.avg_price ∧
    (recoveredOrder sid ev).execution_percentage = 1 := by
  have hr : (recognizeFill known_orders deque ev).2.1 =
      sortByFillTime (deque ++ [recoveredOrder sid ev]) := by
    simp only [recognizeFill, hk, hd, Bool.false_eq_true, if_false]
    rw [if_pos hf]
  have hperm : (recognizeFill known_orders deque ev).2.1.Perm
      (recoveredOrder sid ev :: deque) := by
    rw [hr]
    exact (List.mergeSort_perm _ _).trans (List.perm_append_singleton _ _)
  refine ⟨hperm, ?_, ?_, rfl, rfl, rfl⟩
  · rw [hr]
    have := @List.sorted_mergeSort OrderInfo
      (fun a b : OrderInfo => decide (a.fill_time ≤ b.fill_time))
      (fun a b c hab hbc => by
        simp only [decide_eq_true_eq] at *
        omega)
      (fun a b => by
        simp only [Bool.or_eq_true, decide_eq_true_eq]
        omega)
      (deque ++ [recoveredOrder sid ev])
    exact this.imp (fun h => by simpa using h)
  · exact hperm.mem_iff.mpr (List.mem_cons_self _ _)

/-- Witness for `late_fill_recovery` on a one-entry known-orders map and an
empty deque. -/
theorem late_fill_recovery_witness :
    ([("A", 7)].lookup "A" = some 7 ∧
     (([] : List OrderInfo).any fun o => o.okx_order_id == "A") = false ∧
     (0 : ℚ) < 1) ∧
    ((recognizeFill [("A", 7)] [] ⟨"A", 1, 10, "buy", "filled", 0, 5⟩).2.1.Perm
        (recoveredOrder 7 ⟨"A", 1, 10, "buy", "filled", 0, 5⟩ :: []) ∧
     (recognizeFill [("A", 7)] [] ⟨"A", 1, 10, "buy", "filled", 0, 5⟩).2.1.Pairwise
        (fun a b => a.fill_time ≤ b.fill_time) ∧
     recoveredOrder 7 ⟨"A", 1, 10, "buy", "filled", 0, 5⟩ ∈
        (recognizeFill [("A", 7)] [] ⟨"A", 1, 10, "buy", "filled", 0, 5⟩).2.1 ∧
     (recoveredOrder 7 ⟨"A", 1, 10, "buy", "filled", 0, 5⟩).volume = 1 ∧
     (recoveredOrder 7 ⟨"A", 1, 10, "buy", "filled", 0, 5⟩).price = 10 ∧
     (recoveredOrder 7 ⟨"A", 1, 10, "buy", "filled", 0, 5⟩).execution_percentage = 1) :=
  ⟨⟨rfl, rfl, by norm_num⟩,
   late_fill_recovery [("A", 7)] [] ⟨"A", 1, 10, "buy", "filled", 0, 5⟩ 7 rfl rfl
     (by norm_num)⟩

end oms_service

namespace oms_service

/-- The trade-closure JSON message of §6.2: `is_trade_closed`, the
`filled_portions` array (entries keyed by exchange order id), and the
optional `reward` field. -/
structure ClosureMsg where
  is_trade_closed : Bool
  filled_portions : List (String × ℚ)
  reward : Option ℚ
  deriving DecidableEq, Repr

/-- The message built by the 4-argument
`OMSHandler::publishTradeUpdate(state_id, okx_id, is_trade_closed,
filled_portions)` overload (part_000 lines 1792-1882).  The caller-supplied
`filled_portions` vector is consulted only by the early-exit guard; the
array actually sent is rebuilt from `current_trade_.orders`, one entry per
order whose `tradeId` matches the trade's, valued at that order's
`execution_percentage` (a 0-1 decimal) for closure messages.  ℚ division
by zero is 0 where C++ would produce inf (only reachable in the
non-closure branch). -/
def publishTradeUpdateClosureMsg (tr : Trade) (maxdd : ℚ) (is_trade_closed : Bool)
    (filled_portions_arg : List (String × ℚ)) : Option ClosureMsg :=
  if ¬is_trade_closed ∧ filled_portions_arg = [] then none
  else some
    { is_trade_closed := is_trade_closed
      filled_portions := tr.orders.filterMap fun o =>
        if o.tradeId = tr.tradeId then
          if is_trade_closed then some (o.okx_order_id, o.execution_percentage)
          else
            if 0 < ((o.fill_portions.filter fun p => !p.is_closing).map
                FillPortion.size).sum then
              some (o.okx_order_id,
                ((o.fill_portions.filter fun p => !p.is_closing).map
                  FillPortion.size).sum / o.volume)
            else none
        else none
      reward :=
        if is_trade_closed then
          if tr.get_avg_buy_price > 0 ∧ tr.get_avg_sell_price > 0 then
            some
              (if (if tr.is_long then
                    (tr.get_avg_sell_price - tr.get_avg_buy_price) / tr.get_avg_buy_price
                   else
                    (tr.get_avg_buy_price - tr.get_avg_sell_price) /
                      tr.get_avg_sell_price) * 100 > 0 then
                (if tr.is_long then
                  (tr.get_avg_sell_price - tr.get_avg_buy_price) / tr.get_avg_buy_price
                 else
                  (tr.get_avg_buy_price - tr.get_avg_sell_price) /
                    tr.get_avg_sell_price) * 100 * (1 - 2 * |maxdd|)
              else if (if tr.is_long then
                    (tr.get_avg_sell_price - tr.get_avg_buy_price) / tr.get_avg_buy_price
                   else
                    (tr.get_avg_buy_price - tr.get_avg_sell_price) /
                      tr.get_avg_sell_price) * 100 < 0 then
                (if tr.is_long then
                  (tr.get_avg_sell_price - tr.get_avg_buy_price) / tr.get_avg_buy_price
                 else
                  (tr.get_avg_buy_price - tr.get_avg_sell_price) /
                    tr.get_avg_sell_price) * 100 * (1 + 2 * |maxdd|)
              else
                (if tr.is_long then
                  (tr.get_avg_sell_price - tr.get_avg_buy_price) / tr.get_avg_buy_price
                 else
                  (tr.get_avg_buy_price - tr.get_avg_sell_price) /
                    tr.get_avg_sell_price) * 100)
          else none
        else none }

/-- The ×100×100 "final reward" computed — and only logged, never
published — inside `order_fill_callback` at trade closure (part_000 lines
507-541 and 1150-1185). -/
def internalFinalReward (tr : Trade) (maxdd : ℚ) : ℚ :=
  if tr.get_avg_buy_price > 0 ∧ tr.get_avg_sell_price > 0 then
    let base :=
      (if tr.is_long then
        (tr.get_avg_sell_price - tr.get_avg_buy_price) / tr.get_avg_buy_price
       else
        (tr.get_avg_buy_price - tr.get_avg_sell_price) / tr.get_avg_sell_price) * 100 * 100
    if base > 0 then base * (1 - 2 * |maxdd|)
    else if base < 0 then base * (1 + 2 * |maxdd|)
    else base
  else 0

/-- A closed long trade: bought 1.0 at 30000, sold 1.0 at 30300, no
drawdown. -/
def tradeC2 : Trade :=
  { has_active_trade := true
    is_long := true
    tradeId := "B1"
    orders := [{ okx_order_id := "B1", tradeId := "B1", filled_size := 1, volume := 1,
                 execution_percentage := 1, side := "buy" },
               { okx_order_id := "S1", tradeId := "B1", filled_size := 1, volume := 1,
                 execution_percentage := 1, side := "sell" }]
    buy_side_cumulative_price := 30000
    buy_side_total_size := 1
    sell_side_cumulative_price := 30300
    sell_side_total_size := 1 }

/-- C2 (counterexample): for the 1% long round trip (buy 1.0 @ 30000, sell
1.0 @ 30300, maxdd 0) the claim's formula `base = ratio × 10_000` gives a
published reward of 100, but the closure overload publishes
`ratio × 100 = 1`.  (The ×10_000 value is computed internally at closure
but only logged.) -/
theorem closure_reward_counterexample :
    (publishTradeUpdateClosureMsg tradeC2 0 true []).map (fun m => m.reward) =
      some (some 1) ∧
    internalFinalReward tradeC2 0 = 100 ∧ (1 : ℚ) ≠ 100 := by
  refine ⟨?_, ?_, by norm_num⟩
  · with_unfolding_all decide
  · with_unfolding_all decide

/-- C2 (amended): for every trade closure with positive side-averaged
prices, the *published* reward equals `base × (1 − 2·|maxdd|)` for
`base > 0` and `base × (1 + 2·|maxdd|)` for `base < 0`, where
`base = ((avg_sell − avg_buy)/avg_buy) × 100` for a long trade and
`((avg_buy − avg_sell)/avg_sell) × 100` for a short trade — i.e. a
percentage, not the ×10_000 value the claim stated (which the engine
computes internally at closure but never publishes). -/
theorem closure_reward_formula (tr : Trade) (maxdd : ℚ) (args : List (String × ℚ))
    (hqb : 0 < tr.buy_side_total_size) (hqs : 0 < tr.sell_side_total_size)
    (hab : tr.buy_side_cumulative_price / tr.buy_side_total_size > 0)
    (hasl : tr.sell_side_cumulative_price / tr.sell_side_total_size > 0) :
    (publishTradeUpdateClosureMsg tr maxdd true args).map (fun m => m.reward) =
      some (some
        (let avgBuy := tr.buy_side_cumulative_price / tr.buy_side_total_size
         let avgSell := tr.sell_side_cumulative_price / tr.sell_side_total_size
         if (if tr.is_long then (avgSell - avgBuy) / avgBuy
             else (avgBuy - avgSell) / avgSell) * 100 > 0 then
           (if tr.is_long then (avgSell - avgBuy) / avgBuy
            else (avgBuy - avgSell) / avgSell) * 100 * (1 - 2 * |maxdd|)
         else if (if tr.is_long then (avgSell - avgBuy) / avgBuy
             else (avgBuy - avgSell) / avgSell) * 100 < 0 then
           (if tr.is_long then (avgSell - avgBuy) / avgBuy
            else (avgBuy - avgSell) / avgSell) * 100 * (1 + 2 * |maxdd|)
         else
           (if tr.is_long then (avgSell - avgBuy) / avgBuy
            else (avgBuy - avgSell) / avgSell) * 100)) := by
  have hgb : tr.get_avg_buy_price = tr.buy_side_cumulative_price / tr.buy_side_total_size := by
    simp [Trade.get_avg_buy_price, hqb]
  have hgs : tr.get_avg_sell_price =
      tr.sell_side_cumulative_price / tr.sell_side_total_size := by
    simp [Trade.get_avg_sell_price, hqs]
  rw [publishTradeUpdateClosureMsg, if_neg (by simp)]
  simp only [Option.map_some']
  simp only [hgb, hgs, if_pos trivial]
  rw [if_pos (⟨hab, hasl⟩ : _ ∧ _)]

/-- Witness for `closure_reward_formula` at the concrete closed trade
`tradeC2`. -/
theorem closure_reward_formula_witness :
    ((0 : ℚ) < tradeC2.buy_side_total_size ∧ (0 : ℚ) < tradeC2.sell_side_total_size ∧
     tradeC2.buy_side_cumulative_price / tradeC2.buy_side_total_size > 0 ∧
     tradeC2.sell_side_cumulative_price / tradeC2.sell_side_total_size > 0) ∧
    (publishTradeUpdateClosureMsg tradeC2 (1 / 10) true []).map (fun m => m.reward) =
      some (some
        (let avgBuy := tradeC2.buy_side_cumulative_price / tradeC2.buy_side_total_size
         let avgSell := tradeC2.sell_side_cumulative_price / tradeC2.sell_side_total_size
         if (if tradeC2.is_long then (avgSell - avgBuy) / avgBuy
             else (avgBuy - avgSell) / avgSell) * 100 > 0 then
           (if tradeC2.is_long then (avgSell - avgBuy) / avgBuy
            else (avgBuy - avgSell) / avgSell) * 100 * (1 - 2 * |(1 : ℚ) / 10|)
         else if (if tradeC2.is_long then (avgSell - avgBuy) / avgBuy
             else (avgBuy - avgSell) / avgSell) * 100 < 0 then
           (if tradeC2.is_long then (avgSell - avgBuy) / avgBuy
            else (avgBuy - avgSell) / avgSell) * 100 * (1 + 2 * |(1 : ℚ) / 10|)
         else
           (if tradeC2.is_long then (avgSell - avgBuy) / avgBuy
            else (avgBuy - avgSell) / avgSell) * 100)) :=
  ⟨⟨by norm_num [tradeC2], by norm_num [tradeC2], by norm_num [tradeC2],
    by norm_num [tradeC2]⟩,
   closure_reward_formula tradeC2 (1 / 10) [] (by norm_num [tradeC2])
     (by norm_num [tradeC2]) (by norm_num [tradeC2]) (by norm_num [tradeC2])⟩

end oms_service

namespace oms_service

/-- A guarded `filterMap` is a `filter` followed by a `map`. -/
theorem filterMap_guard_eq {α β : Type} (l : List α) (p : α → Prop) [DecidablePred p]
    (f : α → β) :
    (l.filterMap fun a => if p a then some (f a) else none) =
      (l.filter fun a => decide (p a)).map f := by
  induction l with
  | nil => rfl
  | cons a t ih =>
      by_cases h : p a
      · simp [List.filterMap_cons, List.filter_cons, h, ih]
      · simp [List.filterMap_cons, List.filter_cons, h, ih]

/-- A closed trade holding one dual-purpose order: two fill portions of
size 1 each (one closing, one opening), order execution fraction 1/2. -/
def tradeC3 : Trade :=
  { has_active_trade := true
    is_long := true
    tradeId := "T"
    orders := [{ okx_order_id := "O1", tradeId := "T", volume := 2, filled_size := 1,
                 execution_percentage := 1 / 2, side := "sell",
                 fill_portions := [{ tradeId := "T", size := 1, price := 100,
                                     timestamp := 1, is_closing := true,
                                     execution_percentage := 1 / 4 },
                                   { tradeId := "T", size := 1, price := 100,
                                     timestamp := 2, is_closing := false,
                                     execution_percentage := 1 / 4 }] }] }

/-- C3 (counterexample): the closed trade `tradeC3` has one order with two
fill portions, so the claim demands two `filled_portions` entries valued
as percents in `[0, 100]`; the published closure message carries a single
entry — one per order — valued with the order's decimal execution
fraction `1/2`, not a percent. -/
theorem closure_portions_counterexample :
    (publishTradeUpdateClosureMsg tradeC3 0 true []).map (fun m => m.filled_portions) =
      some [("O1", 1 / 2)] ∧
    ((tradeC3.orders.map fun o => o.fill_portions.length).sum = 2) ∧
    (1 : ℕ) ≠ 2 := by
  refine ⟨?_, ?_, by norm_num⟩
  · with_unfolding_all decide
  · with_unfolding_all decide

/-- C3 (amended): a trade-closure report's `filled_portions` array carries
one entry per *order* of the closed trade (an order's several fill
portions collapse into a single entry keyed by its exchange id), and each
entry's value is that order's execution fraction as a 0-1 decimal — it
lies in `[0, 1]` whenever the orders' execution fractions do. -/
theorem closure_portions_per_order (tr : Trade) (maxdd : ℚ) (args : List (String × ℚ))
    (hfrac : ∀ o ∈ tr.orders, 0 ≤ o.execution_percentage ∧ o.execution_percentage ≤ 1) :
    (publishTradeUpdateClosureMsg tr maxdd true args).map (fun m => m.filled_portions) =
      some ((tr.orders.filter fun o => decide (o.tradeId = tr.tradeId)).map
        fun o => (o.okx_order_id, o.execution_percentage)) ∧
    ∀ e ∈ (tr.orders.filter fun o => decide (o.tradeId = tr.tradeId)).map
        (fun o => (o.okx_order_id, o.execution_percentage)), 0 ≤ e.2 ∧ e.2 ≤ 1 := by
  constructor
  · rw [publishTradeUpdateClosureMsg, if_neg (by simp)]
    simp only [Option.map_some', Option.some.injEq, if_pos trivial]
    exact filterMap_guard_eq tr.orders (fun o => o.tradeId = tr.tradeId)
      (fun o => (o.okx_order_id, o.execution_percentage))
  · intro e he
    rw [List.mem_map] at he
    obtain ⟨o, ho, rfl⟩ := he
    exact hfrac o (List.mem_of_mem_filter ho)

/-- Witness for `closure_portions_per_order` at `tradeC3`. -/
theorem closure_portions_per_order_witness :
    (∀ o ∈ tradeC3.orders, 0 ≤ o.execution_percentage ∧ o.execution_percentage ≤ 1) ∧
    (publishTradeUpdateClosureMsg tradeC3 0 true []).map (fun m => m.filled_portions) =
      some ((tradeC3.orders.filter fun o => decide (o.tradeId = tradeC3.tradeId)).map
        fun o => (o.okx_order_id, o.execution_percentage)) :=
  ⟨by intro o ho; fin_cases ho; norm_num [tradeC3],
   (closure_portions_per_order tradeC3 0 []
     (by intro o ho; fin_cases ho; norm_num [tradeC3])).1⟩

end oms_service

namespace oms_service

/-- A message on the `execution.update` routing key: a per-execution
report (carrying a `state_id`) or a trade-closure/portions message (which
carries no `state_id` field). -/
inductive ExecReport where
  | perExec (state_id : ℕ) (okx_id : String) (execution_percentage : Option ℚ)
  | closure (msg : ClosureMsg)
  deriving DecidableEq, Repr

/-- The reporting state of `OMSHandler`: the `published_state_ids_` set
(as a list) and the log of reports whose broker publish returned
`AMQP_STATUS_OK`. -/
structure PubState where
  published_state_ids : List ℕ
  log : List ExecReport
  deriving DecidableEq, Repr

/-- One invocation of a `publishTradeUpdate` overload.  `send_ok` is the
broker's status for the publish attempt; `tr` is `current_trade_` at call
time; the closure overload also carries the `maxdd_` read and the caller's
(ignored) portions vector. -/
inductive PubCall where
  | update2 (state_id : ℕ) (okx_id : String) (tr : Trade) (send_ok : Bool)
  | update3 (state_id : ℕ) (okx_id : String) (execution_percentage : ℚ) (send_ok : Bool)
  | updateClosure (state_id : ℕ) (okx_id : String) (tr : Trade) (maxdd : ℚ)
      (is_trade_closed : Bool) (filled_portions_arg : List (String × ℚ)) (send_ok : Bool)
  deriving Repr

/-- The three `OMSHandler::publishTradeUpdate` overloads (part_000 lines
1736-1790, 1884-1932, 1792-1882).  The two per-execution overloads skip
when the `state_id` was already published, skip when there is no
execution, and insert the id into `published_state_ids_` only when the
broker accepted the message; the closure overload has no such guard. -/
def publishStep (s : PubState) : PubCall → PubState
  | .update2 sid okx tr ok =>
      if sid ∈ s.published_state_ids then s
      else if ¬ tr.orders.any (fun o => o.okx_order_id == okx ∧ o.filled_size > 0) then s
      else if ok then ⟨sid :: s.published_state_ids, s.log ++ [.perExec sid okx none]⟩
      else s
  | .update3 sid okx pct ok =>
      if sid ∈ s.published_state_ids then s
      else if pct ≤ 0 then s
      else if ok then ⟨sid :: s.published_state_ids, s.log ++ [.perExec sid okx (some pct)]⟩
      else s
  | .updateClosure _ _ tr maxdd closed args ok =>
      match publishTradeUpdateClosureMsg tr maxdd closed args with
      | none => s
      | some msg => if ok then ⟨s.published_state_ids, s.log ++ [.closure msg]⟩ else s

/-- A run of publish calls from the initial reporting state. -/
def runPublish (calls : List PubCall) : PubState :=
  calls.foldl publishStep ⟨[], []⟩

/-- Does a report carry `is_trade_closed = false` together with the given
`state_id`?  (Only the per-execution overloads emit such messages.) -/
def ExecReport.isPerExecFor (sid : ℕ) : ExecReport → Bool
  | .perExec s _ _ => s == sid
  | .closure _ => false

/-- Invariant carried through a publish run: at most one per-execution
report per state id, and none at all while the id is outside
`published_state_ids_`. -/
theorem publishStep_invariant (sid : ℕ) (s : PubState) (c : PubCall)
    (h : (s.log.filter (ExecReport.isPerExecFor sid)).length ≤ 1 ∧
      (sid ∉ s.published_state_ids →
        (s.log.filter (ExecReport.isPerExecFor sid)).length = 0)) :
    ((publishStep s c).log.filter (ExecReport.isPerExecFor sid)).length ≤ 1 ∧
    (sid ∉ (publishStep s c).published_state_ids →
      ((publishStep s c).log.filter (ExecReport.isPerExecFor sid)).length = 0) := by
  obtain ⟨h1, h2⟩ := h
  cases c with
  | update2 sid' okx tr ok =>
      simp only [publishStep]
      split
      · exact ⟨h1, h2⟩
      · split
        · exact ⟨h1, h2⟩
        · split
          · rename_i hmem _ _
            by_cases hsid : sid' = sid
            · subst hsid
              have hz := h2 hmem
              constructor
              · simp [List.filter_append, ExecReport.isPerExecFor, hz]
              · intro hni
                exact absurd (List.mem_cons_self _ _) hni
            · constructor
              · simpa [List.filter_append, ExecReport.isPerExecFor, hsid] using h1
              · intro hni
                have : sid ∉ s.published_state_ids := fun hc =>
                  hni (List.mem_cons_of_mem _ hc)
                simpa [List.filter_append, ExecReport.isPerExecFor, hsid] using h2 this
          · exact ⟨h1, h2⟩
  | update3 sid' okx pct ok =>
      simp only [publishStep]
      split
      · exact ⟨h1, h2⟩
      · split
        · exact ⟨h1, h2⟩
        · split
          · rename_i hmem _ _
            by_cases hsid : sid' = sid
            · subst hsid
              have hz := h2 hmem
              constructor
              · simp [List.filter_append, ExecReport.isPerExecFor, hz]
              · intro hni
                exact absurd (List.mem_cons_self _ _) hni
            · constructor
              · simpa [List.filter_append, ExecReport.isPerExecFor, hsid] using h1
              · intro hni
                have : sid ∉ s.published_state_ids := fun hc =>
                  hni (List.mem_cons_of_mem _ hc)
                simpa [List.filter_append, ExecReport.isPerExecFor, hsid] using h2 this
          · exact ⟨h1, h2⟩
  | updateClosure sid' okx tr maxdd closed args ok =>
      simp only [publishStep]
      split
      · exact ⟨h1, h2⟩
      · split
        · constructor
          · simpa [List.filter_append, ExecReport.isPerExecFor] using h1
          · intro hni
            simpa [List.filter_append, ExecReport.isPerExecFor] using h2 hni
        · exact ⟨h1, h2⟩

/-- C5 (confirmed): over any whole run of the reporting layer — any
sequence of publish-overload invocations with any broker outcomes — at
most one per-execution report (`is_trade_closed = false`) is successfully
published per `state_id`: both per-execution overloads consult
`published_state_ids_` first and record the id there exactly when the
broker accepts the message, so once published, every later attempt for the
same `state_id` is suppressed. -/
theorem per_execution_at_most_once (calls : List PubCall) (sid : ℕ) :
    ((runPublish calls).log.filter (ExecReport.isPerExecFor sid)).length ≤ 1 := by
  suffices h : ∀ (s : PubState),
      (s.log.filter (ExecReport.isPerExecFor sid)).length ≤ 1 ∧
      (sid ∉ s.published_state_ids →
        (s.log.filter (ExecReport.isPerExecFor sid)).length = 0) →
      ((calls.foldl publishStep s).log.filter (ExecReport.isPerExecFor sid)).length ≤ 1 ∧
      (sid ∉ (calls.foldl publishStep s).published_state_ids →
        ((calls.foldl publishStep s).log.filter (ExecReport.isPerExecFor sid)).length = 0) by
    exact (h ⟨[], []⟩ (by simp)).1
  induction calls with
  | nil => intro s hs; exact hs
  | cons c t ih =>
      intro s hs
      exact ih (publishStep s c) (publishStep_invariant sid s c hs)

end oms_service

namespace oms_service

/-- The publish intents issued from inside `order_fill_callback`, in
program order: which `publishTradeUpdate` overload was invoked and with
which arguments (the dedup guards live in `publishStep`). -/
inductive PubIntent where
  | exec2 (state_id : ℕ) (okx_id : String)
  | exec3 (state_id : ℕ) (okx_id : String) (execution_percentage : ℚ)
  | closure4 (state_id : ℕ) (okx_id : String) (filled_portions_arg : List (String × ℚ))
  deriving DecidableEq, Repr

/-- The trade-management state of `OMSHandler`: `current_trade_`,
`next_trade_` and `has_next_trade_`. -/
structure OmsTradeState where
  current_trade : Trade := {}
  next_trade : Trade := {}
  has_next_trade : Bool := false
  deriving DecidableEq, Repr

/-- The `for (order : current_trade_.orders) if (match) { x = order.filled_size;
break; }` idiom. -/
def previousFilledSize (orders : List OrderInfo) (okx : String) : ℚ :=
  match orders.find? (fun o => o.okx_order_id == okx) with
  | some o => o.filled_size
  | none => 0

/-- Update the first element satisfying the predicate (a C++ range loop
with `break`). -/
def updateFirst {α : Type} (p : α → Bool) (f : α → α) : List α → List α
  | [] => []
  | a :: t => if p a then f a :: t else a :: updateFirst p f t

/-- Total size of fill portions tagged with the current trade id across
orders on the buy side (part_000 lines 366-391, 1029-1055). -/
def totalBuySize (tr : Trade) : ℚ :=
  (((tr.orders.filter fun o => o.side == "buy").map
    (fun o => ((o.fill_portions.filter fun p => p.tradeId == tr.tradeId).map
      FillPortion.size).sum)).sum)

/-- Same for the non-buy side. -/
def totalSellSize (tr : Trade) : ℚ :=
  (((tr.orders.filter fun o => !(o.side == "buy")).map
    (fun o => ((o.fill_portions.filter fun p => p.tradeId == tr.tradeId).map
      FillPortion.size).sum)).sum)

/-- `sum_of_orders = total_buy_size - total_sell_size`. -/
def sumOfOrders (tr : Trade) : ℚ := totalBuySize tr - totalSellSize tr

/-- The cumulative-reward block (part_000 lines 432-472 and 1076-1116),
run when `pnl ≠ 0 ∧ filled_size > 0 ∧ avg_price > 0`.  The inner
`previous_filled` is re-read from the *already updated* orders list; the
`isfinite` test always passes in ℚ under the guard. -/
def updateCumulativeReward (tr : Trade) (ev : FillEvent) : Trade :=
  if ev.pnl ≠ 0 ∧ ev.filled_size > 0 ∧ ev.avg_price > 0 then
    { tr with
      cumulative_reward := tr.cumulative_reward +
        (ev.filled_size - previousFilledSize tr.orders ev.okx_order_id) *
        (ev.pnl / (ev.filled_size * ev.avg_price))
      total_size := tr.total_size +
        (ev.filled_size - previousFilledSize tr.orders ev.okx_order_id) }
  else tr

/-- The side-average accumulator block (part_000 lines 474-500 and
1118-1144): the matching order's side receives the *cumulative*
`filled_size` of the event. -/
def updateSideSums (tr : Trade) (ev : FillEvent) : Trade :=
  match tr.orders.find? (fun o => o.okx_order_id == ev.okx_order_id) with
  | none => tr
  | some o =>
      if o.side == "buy" then
        { tr with
          buy_side_cumulative_price :=
            tr.buy_side_cumulative_price + ev.filled_size * ev.avg_price
          buy_side_total_size := tr.buy_side_total_size + ev.filled_size }
      else
        { tr with
          sell_side_cumulative_price :=
            tr.sell_side_cumulative_price + ev.filled_size * ev.avg_price
          sell_side_total_size := tr.sell_side_total_size + ev.filled_size }

/-- The trade-closure path shared (verbatim) by all three closure sites of
`order_fill_callback` (part_000 lines 552-715, 766-936, 1196-1359): when
the triggering order is *not* yet in `current_trade_.orders`, build a
closing order (and, for an opening remainder `≥ 0.001`, park a follow-on
trade in `next_trade_` and set `has_next_trade_`), publish per-execution
updates for the built portions, publish the closure message with the
per-portion percent vector, and switch to the queued follow-on trade or
reset to a default `Trade`.  When the order *is* already in the trade's
order list the whole construction — including the follow-on trade — is
skipped.  `fill_delta` and `previous_size` are the values captured by the
enclosing branch. -/
def handleTradeClosure (tr next : Trade) (has_next : Bool) (sid : ℕ)
    (intended_volume intended_price : ℚ) (ev : FillEvent)
    (fill_delta previous_size : ℚ) : OmsTradeState × List PubIntent :=
  let closing_order_found := tr.orders.any fun o => o.okx_order_id == ev.okx_order_id
  let closing_size := min fill_delta |previous_size|
  let opening_size := fill_delta - closing_size
  let closing_exec : ℚ := if intended_volume > 0 then closing_size / intended_volume else 0
  let opening_exec : ℚ := if intended_volume > 0 then opening_size / intended_volume else 0
  let closing_order : OrderInfo :=
    { state_id := sid, okx_order_id := ev.okx_order_id, filled_size := closing_size,
      avg_fill_price := ev.avg_price, is_filled := ev.state == "filled",
      has_okx_id := true, order_state := ev.state, volume := intended_volume,
      price := intended_price, side := ev.side, tradeId := tr.tradeId,
      execution_percentage := closing_exec,
      fill_portions :=
        if closing_size ≥ 1 / 1000 then
          [{ tradeId := tr.tradeId, size := closing_size, price := ev.avg_price,
             timestamp := ev.fill_time, is_closing := true,
             execution_percentage := closing_exec }]
        else [] }
  let opening_order : OrderInfo :=
    { state_id := sid, okx_order_id := ev.okx_order_id, filled_size := opening_size,
      avg_fill_price := ev.avg_price, is_filled := ev.state == "filled",
      has_okx_id := true, order_state := ev.state, volume := intended_volume,
      price := intended_price, side := ev.side, tradeId := ev.okx_order_id,
      execution_percentage := opening_exec,
      fill_portions := [{ tradeId := ev.okx_order_id, size := opening_size,
                          price := ev.avg_price, timestamp := ev.fill_time,
                          is_closing := false, execution_percentage := opening_exec }] }
  let tr1 := if closing_order_found then tr
             else { tr with orders := tr.orders ++ [closing_order] }
  let mkNext := ¬closing_order_found ∧ opening_size ≥ 1 / 1000
  let next1 := if mkNext then
      ({ has_active_trade := true, is_long := ev.side == "buy", size := opening_size,
         tradeId := ev.okx_order_id, orders := [opening_order] } : Trade)
    else next
  let has_next1 : Bool := if mkNext then true else has_next
  let intents1 : List PubIntent :=
    if closing_order_found then []
    else [.exec3 sid ev.okx_order_id closing_exec] ++
      (if opening_size ≥ 1 / 1000 then [.exec3 sid ev.okx_order_id opening_exec] else [])
  let filled_portions := tr1.orders.flatMap fun o =>
    if o.fill_portions ≠ [] then
      o.fill_portions.map fun p => (o.okx_order_id, min 100 (p.execution_percentage * 100))
    else [(o.okx_order_id, min 100 (o.execution_percentage * 100))]
  (⟨if has_next1 then next1 else {}, next1, false⟩,
   intents1 ++ [.closure4 sid ev.okx_order_id filled_portions])

end oms_service

namespace oms_service

/-- The no-active-trade branch of `order_fill_callback` (part_000 lines
174-221): open a new trade in the fill's direction when the fill is
positive and not a stale closing order. -/
def orderFillNoActiveTrade (st : OmsTradeState) (sid : ℕ)
    (intended_volume intended_price : ℚ) (ev : FillEvent) :
    OmsTradeState × List PubIntent :=
  let tr := st.current_trade
  if ev.filled_size > 0 ∧
      (tr.size = 0 ∨ (tr.is_long ∧ ev.side == "buy") ∨
        (¬tr.is_long ∧ ev.side == "sell")) then
    ({ st with current_trade :=
        { tr with
          has_active_trade := true, is_long := ev.side == "buy",
          size := ev.filled_size, cumulative_reward := 0, total_size := 0,
          tradeId := ev.okx_order_id,
          orders := tr.orders ++
            [{ state_id := sid, okx_order_id := ev.okx_order_id,
               filled_size := ev.filled_size, avg_fill_price := ev.avg_price,
               is_filled := ev.state == "filled", has_okx_id := true,
               order_state := ev.state, volume := intended_volume,
               price := intended_price, side := ev.side, tradeId := ev.okx_order_id,
               execution_percentage :=
                 if intended_volume > 0 then ev.filled_size / intended_volume else 0,
               fill_portions := [{ tradeId := ev.okx_order_id, size := ev.filled_size,
                                   price := ev.avg_price, timestamp := ev.fill_time,
                                   is_closing := false }] }] } },
     [.exec2 sid ev.okx_order_id])
  else (st, [])

/-- The same-direction branch of `order_fill_callback` (part_000 lines
231-721). -/
def orderFillSameDirection (st : OmsTradeState) (sid : ℕ)
    (intended_volume intended_price : ℚ) (ev : FillEvent) :
    OmsTradeState × List PubIntent :=
  let tr := st.current_trade
  let previous_filled_size := previousFilledSize tr.orders ev.okx_order_id
  let fill_delta := ev.filled_size - previous_filled_size
  let previous_size := tr.size
  let size1 := if tr.is_long then previous_size + fill_delta
               else -(|previous_size| + fill_delta)
  let order_found := tr.orders.any fun o => o.okx_order_id == ev.okx_order_id
  let upd := fun (o : OrderInfo) =>
    { o with
      fill_portions := o.fill_portions ++
        (if o.fill_portions = [] ∧ previous_filled_size > 0 then
          [({ tradeId := tr.tradeId, size := previous_filled_size,
              price := o.avg_fill_price, timestamp := ev.fill_time - 1,
              is_closing := false } : FillPortion)]
         else []) ++
        [{ tradeId := tr.tradeId, size := fill_delta, price := ev.avg_price,
           timestamp := ev.fill_time, is_closing := false }],
      filled_size := ev.filled_size,
      avg_fill_price := ev.avg_price,
      order_state := ev.state,
      side := ev.side,
      execution_percentage :=
        if ev.state == "filled" then 1
        else if o.volume > 0 then ev.filled_size / o.volume else 0,
      is_filled := ev.state == "filled" }
  let orders1 :=
    if order_found then
      updateFirst (fun o => o.okx_order_id == ev.okx_order_id) upd tr.orders
    else if ev.filled_size > 0 then
      tr.orders ++
        [{ state_id := sid, okx_order_id := ev.okx_order_id,
           filled_size := ev.filled_size, avg_fill_price := ev.avg_price,
           is_filled := ev.state == "filled", has_okx_id := true,
           order_state := ev.state, volume := intended_volume,
           price := intended_price, side := ev.side, tradeId := tr.tradeId,
           execution_percentage :=
             if intended_volume > 0 then ev.filled_size / intended_volume else 0,
           fill_portions := [{ tradeId := tr.tradeId, size := ev.filled_size,
                               price := ev.avg_price, timestamp := ev.fill_time,
                               is_closing := false }] }]
    else tr.orders
  let tr1 := { tr with size := size1, orders := orders1 }
  let s := sumOfOrders tr1
  let tr2 := { tr1 with size := if |s| < 1 / 10 ^ 8 then 0 else s }
  -- The size-correction block at part_000 lines 409-429 is guarded by
  -- `!is_same_direction` and is therefore statically dead in this branch.
  let tr3 := updateCumulativeReward tr2 ev
  let tr4 := updateSideSums tr3 ev
  if |tr4.size| < 1 / 10 ^ 8 then
    handleTradeClosure tr4 st.next_trade st.has_next_trade sid intended_volume
      intended_price ev fill_delta previous_size
  else
    ({ st with current_trade := tr4 },
     if ev.filled_size > 0 then [.exec2 sid ev.okx_order_id] else [])

/-- The opposite-direction branch of `order_fill_callback` (part_000 lines
722-1366): split the delta into closing/opening, possibly close the trade
immediately, otherwise flip the direction when an opening remainder stays,
update/insert the order, recompute the net position from portions, and
possibly run the closure path again. -/
def orderFillOppositeDirection (st : OmsTradeState) (sid : ℕ)
    (intended_volume intended_price : ℚ) (ev : FillEvent) :
    OmsTradeState × List PubIntent :=
  let tr := st.current_trade
  let previous_size := tr.size
  let previous_filled := previousFilledSize tr.orders ev.okx_order_id
  let fill_delta := ev.filled_size - previous_filled
  let closing_size := min fill_delta |previous_size|
  let opening_size := fill_delta - closing_size
  let size1 := if previous_size > 0 then max 0 (previous_size - closing_size)
               else min 0 (previous_size + closing_size)
  let tr1 := { tr with size := size1, total_size := tr.total_size + closing_size }
  if |tr1.size| < 1 / 10 ^ 8 then
    handleTradeClosure tr1 st.next_trade st.has_next_trade sid intended_volume
      intended_price ev fill_delta previous_size
  else
    let tr2 := if opening_size ≥ 1 / 1000 then
        { tr1 with is_long := ev.side == "buy",
                   size := if ev.side == "buy" then opening_size else -opening_size }
      else tr1
    let order_found := tr2.orders.any fun o => o.okx_order_id == ev.okx_order_id
    let upd := fun (o : OrderInfo) =>
      { o with
        filled_size := if opening_size ≥ 1 / 1000 then opening_size else ev.filled_size,
        avg_fill_price := ev.avg_price,
        order_state := ev.state,
        side := ev.side,
        tradeId := tr2.tradeId,
        execution_percentage :=
          if o.volume > 0 then
            (if opening_size ≥ 1 / 1000 then opening_size / o.volume
             else ev.filled_size / o.volume)
          else 0,
        fill_portions := o.fill_portions ++
          (if closing_size ≥ 1 / 1000 then
            [({ tradeId := tr2.tradeId, size := closing_size, price := ev.avg_price,
                timestamp := ev.fill_time, is_closing := true } : FillPortion)]
           else []) ++
          (if opening_size ≥ 1 / 1000 then
            [({ tradeId := tr2.tradeId, size := opening_size, price := ev.avg_price,
                timestamp := ev.fill_time, is_closing := false } : FillPortion)]
           else []) }
    let orders1 :=
      if order_found then
        updateFirst (fun o => o.okx_order_id == ev.okx_order_id) upd tr2.orders
      else if fill_delta > 0 ∧ opening_size < 1 / 1000 ∧ closing_size > 0 then
        tr2.orders ++
          [{ state_id := sid, okx_order_id := ev.okx_order_id,
             filled_size := ev.filled_size, avg_fill_price := ev.avg_price,
             is_filled := ev.state == "filled", has_okx_id := true,
             order_state := ev.state, volume := intended_volume,
             price := intended_price, side := ev.side, tradeId := tr2.tradeId,
             execution_percentage :=
               if intended_volume > 0 then ev.filled_size / intended_volume else 0,
             fill_portions := [{ tradeId := tr2.tradeId, size := ev.filled_size,
                                 price := ev.avg_price, timestamp := ev.fill_time,
                                 is_closing := true }] }]
      else tr2.orders
    let tr3 := { tr2 with orders := orders1 }
    let s := sumOfOrders tr3
    let tr4 := { tr3 with size := s, is_long := decide (s ≥ 0) }
    let tr5 := updateCumulativeReward tr4 ev
    let tr6 := updateSideSums tr5 ev
    if |tr6.size| < 1 / 10 ^ 8 then
      handleTradeClosure tr6 st.next_trade st.has_next_trade sid intended_volume
        intended_price ev fill_delta previous_size
    else
      ({ st with current_trade := tr6 },
       if ev.filled_size > 0 then [.exec2 sid ev.okx_order_id] else [])

/-- The trade-management section of `order_fill_callback` (part_000 lines
174-1366), dispatching on active trade and fill direction.  Recognition
and deque bookkeeping around it are modelled by `recognizeFill`. -/
def orderFillTradeStep (st : OmsTradeState) (sid : ℕ)
    (intended_volume intended_price : ℚ) (ev : FillEvent) :
    OmsTradeState × List PubIntent :=
  if ¬st.current_trade.has_active_trade then
    orderFillNoActiveTrade st sid intended_volume intended_price ev
  else if (st.current_trade.is_long ∧ ev.side == "buy") ∨
      (¬st.current_trade.is_long ∧ ev.side == "sell") then
    orderFillSameDirection st sid intended_volume intended_price ev
  else
    orderFillOppositeDirection st sid intended_volume intended_price ev

/-- A run of fill events `(state_id, intended_volume, intended_price,
event)` through the trade-management step, from the initial flat state. -/
def runOmsTrade (evs : List (ℕ × ℚ × ℚ × FillEvent)) :
    OmsTradeState × List PubIntent :=
  evs.foldl (fun acc e =>
    ((orderFillTradeStep acc.1 e.1 e.2.1 e.2.2.1 e.2.2.2).1,
     acc.2 ++ (orderFillTradeStep acc.1 e.1 e.2.1 e.2.2.1 e.2.2.2).2)) ({}, [])

end oms_service

namespace oms_service

/-- The three-fill trace exhibiting the dropped follow-on trade: a buy
`B1` opens a long of 1 @ 30000; sell `S1` first reports cumulative 0.5
(partial close to net 0.5), then cumulative 2.0 — a delta of 1.5 that
closes the remaining 0.5 and opens 1.0 short. -/
def evC1 : List (ℕ × ℚ × ℚ × FillEvent) :=
  [ (10, 1, 30000, ⟨"B1", 1, 30000, "buy", "filled", 0, 1⟩),
    (12, 2, 30100, ⟨"S1", 1/2, 30100, "sell", "partially_filled", 0, 2⟩),
    (12, 2, 30100, ⟨"S1", 2, 30100, "sell", "filled", 0, 3⟩) ]

/-- **C1** (code bug): the spec promises that whenever a fill against an
opposite-direction trade leaves an opening remainder `opening =
Δ − min(Δ, |prior_net|) ≥ 1e-3`, exactly one follow-on trade is queued in
the fill's direction with the fill's exchange id as trade id.  The code
builds the follow-on only inside the `!closing_order_found` guard of the
closure block, so when the triggering order already sits in
`current_trade_.orders` — here because an earlier partial fill of `S1`
inserted it as a pure closing order — the opening remainder of 1.0
contract is silently discarded and the engine resets flat.  At the third
fill of `evC1` the claimed precondition holds (Δ = 3/2, prior net = 1/2,
closing = 1/2, opening = 1 ≥ 1/1000, fill side `sell` against a long
trade), yet afterwards `has_next_trade_` is false, `next_trade_` does not
carry trade id `S1`, and `current_trade_` is the default flat `Trade`. -/
theorem flip_drops_followon_trade :
    (let st2 := (runOmsTrade (evC1.take 2)).1
     let tr := st2.current_trade
     let delta := (2 : ℚ) - previousFilledSize tr.orders "S1"
     let closing := min delta |tr.size|
     let opening := delta - closing
     tr.has_active_trade = true ∧ tr.is_long = true ∧ tr.size = 1/2 ∧
     delta = 3/2 ∧ closing = 1/2 ∧ closing ≤ |tr.size| ∧
     opening = 1 ∧ opening ≥ 1/1000) ∧
    (runOmsTrade evC1).1.has_next_trade = false ∧
    (runOmsTrade evC1).1.next_trade.tradeId ≠ "S1" ∧
    (runOmsTrade evC1).1.current_trade = {} := by
  with_unfolding_all decide

end oms_service

namespace okx_orderbook

/-- `OrderBookLevel` from the orderbook handler header (price, volume,
order count; doubles modelled as ℚ). -/
structure OrderBookLevel where
  price : ℚ
  volume : ℚ
  orders : ℚ
  deriving DecidableEq, Repr

/-- The default-constructed level `OrderBookLevel()`. -/
def obZero : OrderBookLevel := ⟨0, 0, 0⟩

/-- `compareAsks`: ascending order for asks. -/
def compareAsks (a b : OrderBookLevel) : Bool := decide (a.price < b.price)

/-- `compareBids`: descending order for bids. -/
def compareBids (a b : OrderBookLevel) : Bool := decide (a.price > b.price)

/-- One parsed price-level row `[price, volume, _, orders]` of an OKX
frame (rows with fewer than four fields are discarded by the parsing
loop and never reach the book). -/
structure BookFrame where
  bids : List (ℚ × ℚ × ℚ)
  asks : List (ℚ × ℚ × ℚ)
  deriving DecidableEq, Repr

/-- The two book sides `bids` and `asks` of `OrderBookHandler`. -/
structure Book where
  bids : List OrderBookLevel
  asks : List OrderBookLevel
  deriving DecidableEq, Repr

/-- Outcome of the binary-search loop of `updatePriceLevel`: an exact
match at `mid`, or fall-through with insertion point `left`. -/
inductive BsOutcome where
  | found (mid : ℕ)
  | notFound (ins : ℕ)
  deriving DecidableEq, Repr

/-- The `while (left < right)` binary search of `updatePriceLevel`
(orderbook_handler.cpp lines 177-213), parametrised by the strict price
comparison `bf` that orders the side (`>` for bids, `<` for asks): the
two `is_bids` branches of the C++ are literally this loop at the two
instantiations of `bf`. -/
def bsLoop (bf : ℚ → ℚ → Bool) (s : List OrderBookLevel) (p : ℚ)
    (left right : ℕ) : BsOutcome :=
  if h : left < right then
    if bf (s.getD ((left + right) / 2) obZero).price p then
      bsLoop bf s p ((left + right) / 2 + 1) right
    else if bf p (s.getD ((left + right) / 2) obZero).price then
      bsLoop bf s p left ((left + right) / 2)
    else .found ((left + right) / 2)
  else .notFound left
  termination_by right - left
  decreasing_by all_goals omega

/-- `OrderBookHandler::updatePriceLevel` after field extraction: erase an
exact match with non-positive volume, overwrite volume and order count on
an exact match with positive volume, drop a non-positive-volume miss, and
insert a positive-volume miss at the search's fall-through position. -/
def updatePriceLevel (bf : ℚ → ℚ → Bool) (s : List OrderBookLevel)
    (price volume orders : ℚ) : List OrderBookLevel :=
  match bsLoop bf s price 0 s.length with
  | .found mid =>
      if volume ≤ 0 then s.eraseIdx mid
      else s.set mid { s.getD mid obZero with volume := volume, orders := orders }
  | .notFound ins =>
      if volume ≤ 0 then s
      else s.insertIdx ins ⟨price, volume, orders⟩

/-- One side of `processOrderBookUpdate`: fold `updatePriceLevel` over
the frame's rows, then `std::sort` with the side's comparator (modelled
by the stable `mergeSort` on the comparator's reflexive closure). -/
def applySide (bf : ℚ → ℚ → Bool) (s : List OrderBookLevel)
    (rows : List (ℚ × ℚ × ℚ)) : List OrderBookLevel :=
  (rows.foldl (fun acc r => updatePriceLevel bf acc r.1 r.2.1 r.2.2) s).mergeSort
    fun a b => !(bf b.price a.price)

/-- `REQUIRED_LEVELS`: OKX provides 400 levels per side. -/
def REQUIRED_LEVELS : ℕ := 400

/-- `OrderBookHandler::validateOrderBookState`: throw unless both sides
hold exactly 400 levels (the `Except` carries the thrown message). -/
def validateOrderBookState (b : Book) : Except String Book :=
  if b.bids.length = REQUIRED_LEVELS ∧ b.asks.length = REQUIRED_LEVELS then .ok b
  else .error "Invalid order book state"

/-- `OrderBookHandler::processOrderBookUpdate`: apply the frame's rows to
both sides, re-sort each side, and validate. -/
def processOrderBookUpdate (b : Book) (f : BookFrame) : Except String Book :=
  validateOrderBookState
    ⟨applySide (fun a b => decide (a > b)) b.bids f.bids,
     applySide (fun a b => decide (a < b)) b.asks f.asks⟩

/-- Row-to-level conversion `emplace_back(price, volume, orders)`. -/
def toLevel (r : ℚ × ℚ × ℚ) : OrderBookLevel := ⟨r.1, r.2.1, r.2.2⟩

/-- `OrderBookHandler::handleSnapshot`: clear both sides, keep the
snapshot rows with positive volume, sort each side with its comparator,
and validate. -/
def handleSnapshot (f : BookFrame) : Except String Book :=
  validateOrderBookState
    ⟨((f.bids.filter fun r => r.2.1 > 0).map toLevel).mergeSort
        (fun a b => !(decide (b.price > a.price))),
     ((f.asks.filter fun r => r.2.1 > 0).map toLevel).mergeSort
        (fun a b => !(decide (b.price < a.price)))⟩

/-- A snapshot followed by a sequence of delta frames, stopping at the
first validation failure (the process aborts on the throw). -/
def runUpdates (b : Book) : List BookFrame → Except String Book
  | [] => .ok b
  | f :: rest =>
      match processOrderBookUpdate b f with
      | .error e => .error e
      | .ok b1 => runUpdates b1 rest

/-- Snapshot plus deltas from a cleared book. -/
def runBook (snap : BookFrame) (frames : List BookFrame) : Except String Book :=
  match handleSnapshot snap with
  | .error e => .error e
  | .ok b0 => runUpdates b0 frames

end okx_orderbook

namespace okx_orderbook

/-- The properties of a side's strict price comparison that the binary
search relies on; both instantiations (`>` for bids, `<` for asks)
satisfy them. -/
structure PriceOrder (bf : ℚ → ℚ → Bool) : Prop where
  irrefl : ∀ a, bf a a = false
  trans : ∀ a b c, bf a b = true → bf b c = true → bf a c = true
  total : ∀ a b, bf a b = true ∨ bf b a = true ∨ a = b

theorem priceOrder_gt : PriceOrder fun a b => decide (a > b) := by
  constructor
  · intro a; simp
  · intro a b c hab hbc
    simp only [decide_eq_true_eq] at *
    exact lt_trans hbc hab
  · intro a b
    rcases lt_trichotomy a b with h | h | h
    · right; left; simpa using h
    · right; right; exact h
    · left; simpa using h

theorem priceOrder_lt : PriceOrder fun a b => decide (a < b) := by
  constructor
  · intro a; simp
  · intro a b c hab hbc
    simp only [decide_eq_true_eq] at *
    exact lt_trans hab hbc
  · intro a b
    rcases lt_trichotomy a b with h | h | h
    · left; simpa using h
    · right; right; exact h
    · right; left; simpa using h

/-- A side in its sort order: strict `Pairwise` of the comparison on
prices. -/
def sideSorted (bf : ℚ → ℚ → Bool) (s : List OrderBookLevel) : Prop :=
  s.Pairwise fun a b => bf a.price b.price = true

theorem sideSorted_getD {bf : ℚ → ℚ → Bool} {s : List OrderBookLevel}
    (h : sideSorted bf s) :
    ∀ i j, i < j → j < s.length →
      bf (s.getD i obZero).price (s.getD j obZero).price = true := by
  intro i j hij hj
  have hi : i < s.length := by omega
  rw [List.getD_eq_getElem _ _ hi, List.getD_eq_getElem _ _ hj]
  exact List.pairwise_iff_getElem.mp h i j hi hj hij

/-- The `found` outcome of the search names an index holding exactly the
searched price. -/
theorem bsLoop_found_spec {bf : ℚ → ℚ → Bool} (ho : PriceOrder bf)
    {s : List OrderBookLevel} {p : ℚ} :
    ∀ d left right mid, right - left ≤ d → right ≤ s.length →
    bsLoop bf s p left right = .found mid →
    mid < s.length ∧ (s.getD mid obZero).price = p := by
  intro d
  induction d with
  | zero =>
      intro left right mid hd hrl heq
      rw [bsLoop, dif_neg (by omega : ¬ left < right)] at heq
      simp at heq
  | succ n ih =>
      intro left right mid hd hrl heq
      by_cases hlr : left < right
      · rw [bsLoop, dif_pos hlr] at heq
        by_cases h1 : bf (s.getD ((left + right) / 2) obZero).price p
        · rw [if_pos h1] at heq
          exact ih ((left + right) / 2 + 1) right mid (by omega) hrl heq
        · rw [if_neg h1] at heq
          by_cases h2 : bf p (s.getD ((left + right) / 2) obZero).price
          · rw [if_pos h2] at heq
            exact ih left ((left + right) / 2) mid (by omega) (by omega) heq
          · rw [if_neg h2] at heq
            have hmid : mid = (left + right) / 2 := by
              cases heq; rfl
            subst hmid
            refine ⟨by omega, ?_⟩
            rcases ho.total (s.getD ((left + right) / 2) obZero).price p with h | h | h
            · exact absurd h h1
            · exact absurd h h2
            · exact h
      · rw [bsLoop, dif_neg hlr] at heq
        simp at heq

/-- Window invariant of the search: on a sorted side, the fall-through
index splits the side into a strict prefix below and a strict suffix
above the searched price. -/
theorem bsLoop_notFound_spec {bf : ℚ → ℚ → Bool} (ho : PriceOrder bf)
    {s : List OrderBookLevel} {p : ℚ}
    (hsort : ∀ i j, i < j → j < s.length →
      bf (s.getD i obZero).price (s.getD j obZero).price = true) :
    ∀ d left right ins, right - left ≤ d → left ≤ right → right ≤ s.length →
    (∀ i, i < left → bf (s.getD i obZero).price p = true) →
    (∀ i, right ≤ i → i < s.length → bf p (s.getD i obZero).price = true) →
    bsLoop bf s p left right = .notFound ins →
    ins ≤ s.length ∧ (∀ i, i < ins → bf (s.getD i obZero).price p = true) ∧
    (∀ i, ins ≤ i → i < s.length → bf p (s.getD i obZero).price = true) := by
  intro d
  induction d with
  | zero =>
      intro left right ins hd hlr hrl hlow hhigh heq
      rw [bsLoop, dif_neg (by omega : ¬ left < right)] at heq
      cases heq
      exact ⟨by omega, hlow, fun i hi hil => hhigh i (by omega) hil⟩
  | succ n ih =>
      intro left right ins hd hlr hrl hlow hhigh heq
      by_cases hnl : left < right
      · rw [bsLoop, dif_pos hnl] at heq
        by_cases h1 : bf (s.getD ((left + right) / 2) obZero).price p
        · rw [if_pos h1] at heq
          refine ih ((left + right) / 2 + 1) right ins (by omega) (by omega) hrl ?_ hhigh heq
          intro i hi
          rcases Nat.lt_or_ge i left with hil | hil
          · exact hlow i hil
          · rcases Nat.lt_or_ge i ((left + right) / 2) with him | him
            · exact ho.trans _ _ _ (hsort i ((left + right) / 2) him (by omega)) h1
            · have hieq : i = (left + right) / 2 := by omega
              rw [hieq]; exact h1
        · rw [if_neg h1] at heq
          by_cases h2 : bf p (s.getD ((left + right) / 2) obZero).price
          · rw [if_pos h2] at heq
            refine ih left ((left + right) / 2) ins (by omega) (by omega) (by omega)
              hlow ?_ heq
            intro i hmi hil
            rcases Nat.lt_or_ge ((left + right) / 2) i with him | him
            · exact ho.trans _ _ _ h2 (hsort ((left + right) / 2) i him hil)
            · have hieq : i = (left + right) / 2 := by omega
              rw [hieq]; exact h2
          · rw [if_neg h2] at heq
            simp at heq
      · rw [bsLoop, dif_neg hnl] at heq
        cases heq
        exact ⟨by omega, hlow, fun i hi hil => hhigh i (by omega) hil⟩

end okx_orderbook

namespace okx_orderbook

/-- Inserting an element that is above the prefix and below the suffix of
the insertion point preserves `Pairwise`. -/
theorem pairwise_insertIdx_of_bracket {α : Type} {R : α → α → Prop} :
    ∀ (l : List α) (n : ℕ) (a : α), n ≤ l.length → l.Pairwise R →
    (∀ i (h : i < l.length), i < n → R l[i] a) →
    (∀ i (h : i < l.length), n ≤ i → R a l[i]) →
    (l.insertIdx n a).Pairwise R := by
  intro l
  induction l with
  | nil =>
      intro n a hn _ _ _
      have hzero : n = 0 := by simpa using hn
      subst hzero
      simp
  | cons x t iht =>
      intro n a hn hp hlow hhigh
      cases n with
      | zero =>
          rw [List.insertIdx_zero]
          refine List.pairwise_cons.mpr ⟨?_, hp⟩
          intro y hy
          rcases List.mem_iff_getElem.mp hy with ⟨i, hi, rfl⟩
          exact hhigh i hi (by omega)
      | succ m =>
          rw [List.insertIdx_succ_cons]
          rcases List.pairwise_cons.mp hp with ⟨hx, ht⟩
          have hmt : m ≤ t.length := by simpa using hn
          refine List.pairwise_cons.mpr ⟨?_, ?_⟩
          · intro y hy
            rcases (List.mem_insertIdx hmt).mp hy with hya | hyt
            · rw [hya]
              exact hlow 0 (by simp) (by omega)
            · exact hx y hyt
          · refine iht m a hmt ht ?_ ?_
            · intro i hi him
              have := hlow (i + 1) (by simpa using Nat.succ_lt_succ hi) (by omega)
              simpa using this
            · intro i hi hmi
              have := hhigh (i + 1) (by simpa using Nat.succ_lt_succ hi) (by omega)
              simpa using this

/-- Overwriting an entry with one carrying the same price preserves the
side's sort order. -/
theorem sideSorted_set {bf : ℚ → ℚ → Bool} {s : List OrderBookLevel}
    (hs : sideSorted bf s) {mid : ℕ} {a : OrderBookLevel} (hmid : mid < s.length)
    (hpe : a.price = s[mid].price) : sideSorted bf (s.set mid a) := by
  rw [sideSorted, List.pairwise_iff_getElem]
  intro i j hi hj hij
  rw [List.length_set] at hi hj
  have hmain := List.pairwise_iff_getElem.mp hs
  rw [List.getElem_set, List.getElem_set]
  by_cases h1 : mid = i
  · rw [if_pos h1, if_neg (by omega : ¬ mid = j)]
    subst h1
    rw [hpe]
    exact hmain mid j hmid hj hij
  · rw [if_neg h1]
    by_cases h2 : mid = j
    · rw [if_pos h2]
      subst h2
      rw [hpe]
      exact hmain i mid hi hmid hij
    · rw [if_neg h2]
      exact hmain i j hi hj hij

/-- `updatePriceLevel` preserves strict sort order and volume
positivity. -/
theorem updatePriceLevel_invariant {bf : ℚ → ℚ → Bool} (ho : PriceOrder bf)
    {s : List OrderBookLevel} (hs : sideSorted bf s) (hv : ∀ x ∈ s, 0 < x.volume)
    (price volume orders : ℚ) :
    sideSorted bf (updatePriceLevel bf s price volume orders) ∧
    ∀ x ∈ updatePriceLevel bf s price volume orders, 0 < x.volume := by
  rw [updatePriceLevel]
  rcases hbs : bsLoop bf s price 0 s.length with mid | ins
  · dsimp only
    have hfound := bsLoop_found_spec ho s.length 0 s.length mid (by omega) le_rfl hbs
    by_cases hvol : volume ≤ 0
    · rw [if_pos hvol]
      refine ⟨List.Pairwise.sublist (List.eraseIdx_sublist s mid) hs, ?_⟩
      intro x hx
      exact hv x ((List.eraseIdx_sublist s mid).subset hx)
    · rw [if_neg hvol]
      constructor
      · refine sideSorted_set hs hfound.1 ?_
        show (s.getD mid obZero).price = s[mid].price
        exact congrArg OrderBookLevel.price (List.getD_eq_getElem s obZero hfound.1)
      · intro x hx
        rcases List.mem_or_eq_of_mem_set hx with hxs | hxa
        · exact hv x hxs
        · rw [hxa]
          exact lt_of_not_le hvol
  · dsimp only
    have hnf := bsLoop_notFound_spec ho (sideSorted_getD hs) s.length 0 s.length ins
      (by omega) (by omega) le_rfl (by omega) (by omega) hbs
    by_cases hvol : volume ≤ 0
    · rw [if_pos hvol]
      exact ⟨hs, hv⟩
    · rw [if_neg hvol]
      constructor
      · refine pairwise_insertIdx_of_bracket s ins ⟨price, volume, orders⟩ hnf.1 hs ?_ ?_
        · intro i hi hins
          have := hnf.2.1 i hins
          rw [List.getD_eq_getElem _ _ hi] at this
          exact this
        · intro i hi hins
          have := hnf.2.2 i hins hi
          rw [List.getD_eq_getElem _ _ hi] at this
          exact this
      · intro x hx
        rcases (List.mem_insertIdx hnf.1).mp hx with hxa | hxs
        · rw [hxa]
          exact lt_of_not_le hvol
        · exact hv x hxs

end okx_orderbook

namespace okx_orderbook

/-- A strictly sorted side has pairwise-distinct prices. -/
theorem sideSorted_ne {bf : ℚ → ℚ → Bool} (ho : PriceOrder bf)
    {s : List OrderBookLevel} (hs : sideSorted bf s) :
    s.Pairwise fun a b => a.price ≠ b.price := by
  refine hs.imp ?_
  intro a b hab heq
  rw [heq, ho.irrefl] at hab
  cases hab

/-- `std::sort` with the side's strict comparator on a list with
pairwise-distinct prices produces a strictly sorted side. -/
theorem mergeSort_strict {bf : ℚ → ℚ → Bool} (ho : PriceOrder bf)
    (l : List OrderBookLevel)
    (hne : l.Pairwise fun a b => a.price ≠ b.price) :
    sideSorted bf (l.mergeSort fun a b => !(bf b.price a.price)) := by
  have htrans : ∀ a b c : OrderBookLevel, (!(bf b.price a.price)) = true →
      (!(bf c.price b.price)) = true → (!(bf c.price a.price)) = true := by
    intro a b c hab hbc
    simp only [Bool.not_eq_true'] at hab hbc ⊢
    cases hca : bf c.price a.price
    · rfl
    · exfalso
      rcases ho.total a.price b.price with h2 | h2 | h2
      · have h3 := ho.trans _ _ _ hca h2
        rw [h3] at hbc
        cases hbc
      · rw [h2] at hab
        cases hab
      · rw [h2] at hca
        rw [hca] at hbc
        cases hbc
  have htotal : ∀ a b : OrderBookLevel,
      ((!(bf b.price a.price)) || (!(bf a.price b.price))) = true := by
    intro a b
    rw [Bool.or_eq_true, Bool.not_eq_true', Bool.not_eq_true']
    cases h1 : bf b.price a.price
    · left; rfl
    · cases h2 : bf a.price b.price
      · right; rfl
      · have h3 := ho.trans _ _ _ h1 h2
        rw [ho.irrefl] at h3
        cases h3
  have hsorted := List.sorted_mergeSort htrans htotal l
  have hperm := List.mergeSort_perm l fun a b => !(bf b.price a.price)
  have hnes : (l.mergeSort fun a b => !(bf b.price a.price)).Pairwise
      fun a b => a.price ≠ b.price :=
    (List.Perm.pairwise_iff (fun h => Ne.symm h) hperm).mpr hne
  rw [sideSorted]
  refine (hsorted.and hnes).imp ?_
  intro a b hab
  rcases ho.total a.price b.price with h | h | h
  · exact h
  · rw [Bool.not_eq_true'] at hab
    rw [hab.1] at h
    cases h
  · exact absurd h hab.2

/-- One frame side: the fold of `updatePriceLevel` plus the re-sort
preserves strict sortedness and volume positivity. -/
theorem applySide_invariant {bf : ℚ → ℚ → Bool} (ho : PriceOrder bf)
    {s : List OrderBookLevel} (rows : List (ℚ × ℚ × ℚ))
    (hs : sideSorted bf s) (hv : ∀ x ∈ s, 0 < x.volume) :
    sideSorted bf (applySide bf s rows) ∧
    ∀ x ∈ applySide bf s rows, 0 < x.volume := by
  have hfold : ∀ (rows : List (ℚ × ℚ × ℚ)) (s : List OrderBookLevel),
      sideSorted bf s → (∀ x ∈ s, 0 < x.volume) →
      sideSorted bf (rows.foldl (fun acc r => updatePriceLevel bf acc r.1 r.2.1 r.2.2) s) ∧
      ∀ x ∈ rows.foldl (fun acc r => updatePriceLevel bf acc r.1 r.2.1 r.2.2) s,
        0 < x.volume := by
    intro rows
    induction rows with
    | nil => intro s hs hv; exact ⟨hs, hv⟩
    | cons r t iht =>
        intro s hs hv
        rw [List.foldl_cons]
        have h1 := updatePriceLevel_invariant ho hs hv r.1 r.2.1 r.2.2
        exact iht _ h1.1 h1.2
  have hf := hfold rows s hs hv
  constructor
  · exact mergeSort_strict ho _ (sideSorted_ne ho hf.1)
  · intro x hx
    exact hf.2 x (List.mem_mergeSort.mp hx)

/-- The invariant the book maintains between frames. -/
def bookInv (b : Book) : Prop :=
  sideSorted (fun a c => decide (a > c)) b.bids ∧
  sideSorted (fun a c => decide (a < c)) b.asks ∧
  (∀ x ∈ b.bids, 0 < x.volume) ∧ (∀ x ∈ b.asks, 0 < x.volume)

theorem validate_ok {b b' : Book} (h : validateOrderBookState b = .ok b') :
    b' = b ∧ b.bids.length = REQUIRED_LEVELS ∧ b.asks.length = REQUIRED_LEVELS := by
  rw [validateOrderBookState] at h
  split at h
  · cases h
    exact ⟨rfl, by assumption⟩
  · cases h

theorem processOrderBookUpdate_invariant {b : Book} {f : BookFrame} {b1 : Book}
    (hb : bookInv b) (h : processOrderBookUpdate b f = .ok b1) :
    bookInv b1 ∧ b1.bids.length = REQUIRED_LEVELS ∧
      b1.asks.length = REQUIRED_LEVELS := by
  rw [processOrderBookUpdate] at h
  obtain ⟨rfl, hlen⟩ := validate_ok h
  have hbids := applySide_invariant priceOrder_gt f.bids hb.1 hb.2.2.1
  have hasks := applySide_invariant priceOrder_lt f.asks hb.2.1 hb.2.2.2
  exact ⟨⟨hbids.1, hasks.1, hbids.2, hasks.2⟩, hlen⟩

theorem runUpdates_invariant :
    ∀ (frames : List BookFrame) (b bk : Book), bookInv b →
    b.bids.length = REQUIRED_LEVELS → b.asks.length = REQUIRED_LEVELS →
    runUpdates b frames = .ok bk →
    bookInv bk ∧ bk.bids.length = REQUIRED_LEVELS ∧
      bk.asks.length = REQUIRED_LEVELS := by
  intro frames
  induction frames with
  | nil =>
      intro b bk hb h1 h2 h
      rw [runUpdates] at h
      cases h
      exact ⟨hb, h1, h2⟩
  | cons f t iht =>
      intro b bk hb h1 h2 h
      rw [runUpdates] at h
      rcases hp : processOrderBookUpdate b f with e | b1
      · rw [hp] at h
        cases h
      · rw [hp] at h
        have hinv := processOrderBookUpdate_invariant hb hp
        exact iht b1 bk hinv.1 hinv.2.1 hinv.2.2 h

theorem handleSnapshot_invariant {f : BookFrame} {b0 : Book}
    (hbne : ((f.bids.filter fun r => r.2.1 > 0).map fun r => r.1).Pairwise (· ≠ ·))
    (hane : ((f.asks.filter fun r => r.2.1 > 0).map fun r => r.1).Pairwise (· ≠ ·))
    (h : handleSnapshot f = .ok b0) :
    bookInv b0 ∧ b0.bids.length = REQUIRED_LEVELS ∧
      b0.asks.length = REQUIRED_LEVELS := by
  rw [handleSnapshot] at h
  obtain ⟨rfl, hlen⟩ := validate_ok h
  have hbne2 : ((f.bids.filter fun r => r.2.1 > 0).map toLevel).Pairwise
      fun a b => a.price ≠ b.price := by
    rw [List.pairwise_map]
    rw [List.pairwise_map] at hbne
    exact hbne
  have hane2 : ((f.asks.filter fun r => r.2.1 > 0).map toLevel).Pairwise
      fun a b => a.price ≠ b.price := by
    rw [List.pairwise_map]
    rw [List.pairwise_map] at hane
    exact hane
  have hvb : ∀ x ∈ (f.bids.filter fun r => r.2.1 > 0).map toLevel, 0 < x.volume := by
    intro x hx
    rcases List.mem_map.mp hx with ⟨r, hr, rfl⟩
    have := List.of_mem_filter hr
    simpa using this
  have hva : ∀ x ∈ (f.asks.filter fun r => r.2.1 > 0).map toLevel, 0 < x.volume := by
    intro x hx
    rcases List.mem_map.mp hx with ⟨r, hr, rfl⟩
    have := List.of_mem_filter hr
    simpa using this
  refine ⟨⟨?_, ?_, ?_, ?_⟩, hlen⟩
  · exact mergeSort_strict priceOrder_gt _ hbne2
  · exact mergeSort_strict priceOrder_lt _ hane2
  · intro x hx
    exact hvb x (List.mem_mergeSort.mp hx)
  · intro x hx
    exact hva x (List.mem_mergeSort.mp hx)

end okx_orderbook

namespace okx_orderbook

/-- **C4** (amended): the claim holds only under the added precondition
that the snapshot's retained rows carry pairwise-distinct prices per
side (the code never deduplicates: a snapshot with a repeated price
passes validation and leaves a duplicated, non-strictly-sorted side, see
the counterexample).  Under that precondition, after a successfully
applied snapshot and any sequence of successfully applied delta frames,
both sides hold exactly 400 levels, bids are strictly descending and
asks strictly ascending in price, prices are duplicate-free per side,
every row has positive volume, and `validateOrderBookState` fails
exactly on books whose side counts differ from 400. -/
theorem orderbook_update_invariants (snap : BookFrame) (frames : List BookFrame)
    (b : Book)
    (hb : ((snap.bids.filter fun r => r.2.1 > 0).map fun r => r.1).Pairwise (· ≠ ·))
    (ha : ((snap.asks.filter fun r => r.2.1 > 0).map fun r => r.1).Pairwise (· ≠ ·))
    (hrun : runBook snap frames = .ok b) :
    b.bids.length = REQUIRED_LEVELS ∧ b.asks.length = REQUIRED_LEVELS ∧
    b.bids.Pairwise (fun x y => y.price < x.price) ∧
    b.asks.Pairwise (fun x y => x.price < y.price) ∧
    (b.bids.map OrderBookLevel.price).Nodup ∧
    (b.asks.map OrderBookLevel.price).Nodup ∧
    (∀ x ∈ b.bids, 0 < x.volume) ∧ (∀ x ∈ b.asks, 0 < x.volume) ∧
    (∀ bk : Book, (∃ e, validateOrderBookState bk = .error e) ↔
      ¬(bk.bids.length = REQUIRED_LEVELS ∧ bk.asks.length = REQUIRED_LEVELS)) := by
  rw [runBook] at hrun
  rcases hs : handleSnapshot snap with e | b0
  · rw [hs] at hrun
    cases hrun
  · rw [hs] at hrun
    have h0 := handleSnapshot_invariant hb ha hs
    have hfin := runUpdates_invariant frames b0 b h0.1 h0.2.1 h0.2.2 hrun
    obtain ⟨⟨hsb, hsa, hvb, hva⟩, hl1, hl2⟩ := hfin
    refine ⟨hl1, hl2, ?_, ?_, ?_, ?_, hvb, hva, ?_⟩
    · exact hsb.imp fun h => by simpa using h
    · exact hsa.imp fun h => by simpa using h
    · show (b.bids.map OrderBookLevel.price).Pairwise (· ≠ ·)
      rw [List.pairwise_map]
      exact sideSorted_ne priceOrder_gt hsb
    · show (b.asks.map OrderBookLevel.price).Pairwise (· ≠ ·)
      rw [List.pairwise_map]
      exact sideSorted_ne priceOrder_lt hsa
    · intro bk
      constructor
      · rintro ⟨e, he⟩ hcon
        rw [validateOrderBookState, if_pos hcon] at he
        cases he
      · intro hcon
        refine ⟨"Invalid order book state", ?_⟩
        rw [validateOrderBookState, if_neg hcon]

end okx_orderbook

namespace okx_orderbook

/-- A well-formed witness snapshot: 400 bid rows with distinct
descending prices and 400 ask rows with distinct ascending prices, all
of volume 1. -/
def snapW : BookFrame :=
  { bids := (List.range REQUIRED_LEVELS).map fun (i : ℕ) =>
      (((500 : ℚ) - (i : ℚ)), (1 : ℚ), (1 : ℚ)),
    asks := (List.range REQUIRED_LEVELS).map fun (i : ℕ) =>
      (((600 : ℚ) + (i : ℚ)), (1 : ℚ), (1 : ℚ)) }

theorem snapW_bids_eq : snapW.bids =
    (List.range REQUIRED_LEVELS).map fun (i : ℕ) =>
      (((500 : ℚ) - (i : ℚ)), (1 : ℚ), (1 : ℚ)) := rfl

theorem snapW_asks_eq : snapW.asks =
    (List.range REQUIRED_LEVELS).map fun (i : ℕ) =>
      (((600 : ℚ) + (i : ℚ)), (1 : ℚ), (1 : ℚ)) := rfl

theorem snapW_bids_filter :
    snapW.bids.filter (fun r => r.2.1 > 0) = snapW.bids := by
  rw [List.filter_eq_self]
  intro r hr
  rw [snapW_bids_eq] at hr
  rcases List.mem_map.mp hr with ⟨i, _, rfl⟩
  norm_num

theorem snapW_asks_filter :
    snapW.asks.filter (fun r => r.2.1 > 0) = snapW.asks := by
  rw [List.filter_eq_self]
  intro r hr
  rw [snapW_asks_eq] at hr
  rcases List.mem_map.mp hr with ⟨i, _, rfl⟩
  norm_num

theorem snapW_bids_ne :
    ((snapW.bids.filter fun r => r.2.1 > 0).map fun r => r.1).Pairwise (· ≠ ·) := by
  rw [snapW_bids_filter, snapW_bids_eq, List.map_map]
  refine List.Pairwise.map _ ?_ (List.pairwise_lt_range REQUIRED_LEVELS)
  intro a c hac heq
  simp only [Function.comp] at heq
  have hq : (a : ℚ) = c := by linarith
  have hnat : a = c := Nat.cast_injective hq
  omega

theorem snapW_asks_ne :
    ((snapW.asks.filter fun r => r.2.1 > 0).map fun r => r.1).Pairwise (· ≠ ·) := by
  rw [snapW_asks_filter, snapW_asks_eq, List.map_map]
  refine List.Pairwise.map _ ?_ (List.pairwise_lt_range REQUIRED_LEVELS)
  intro a c hac heq
  simp only [Function.comp] at heq
  have hq : (a : ℚ) = c := by linarith
  have hnat : a = c := Nat.cast_injective hq
  omega

/-- The book produced by the witness snapshot. -/
def bW : Book :=
  ⟨((snapW.bids.filter fun r => r.2.1 > 0).map toLevel).mergeSort
      (fun a b => !(decide (b.price > a.price))),
   ((snapW.asks.filter fun r => r.2.1 > 0).map toLevel).mergeSort
      (fun a b => !(decide (b.price < a.price)))⟩

theorem bW_bids_length : bW.bids.length = REQUIRED_LEVELS := by
  show (((snapW.bids.filter fun r => r.2.1 > 0).map toLevel).mergeSort _).length = _
  rw [List.length_mergeSort, List.length_map, snapW_bids_filter, snapW_bids_eq,
    List.length_map, List.length_range]

theorem bW_asks_length : bW.asks.length = REQUIRED_LEVELS := by
  show (((snapW.asks.filter fun r => r.2.1 > 0).map toLevel).mergeSort _).length = _
  rw [List.length_mergeSort, List.length_map, snapW_asks_filter, snapW_asks_eq,
    List.length_map, List.length_range]

theorem snapW_run : runBook snapW [] = .ok bW := by
  rw [runBook]
  have hs : handleSnapshot snapW = .ok bW := by
    rw [handleSnapshot]
    show validateOrderBookState bW = .ok bW
    rw [validateOrderBookState, if_pos ⟨bW_bids_length, bW_asks_length⟩]
  rw [hs]
  rfl

end okx_orderbook

namespace okx_orderbook

theorem orderbook_update_invariants_witness :
    (((snapW.bids.filter fun r => r.2.1 > 0).map fun r => r.1).Pairwise (· ≠ ·)) ∧
    (((snapW.asks.filter fun r => r.2.1 > 0).map fun r => r.1).Pairwise (· ≠ ·)) ∧
    runBook snapW [] = .ok bW ∧
    (bW.bids.length = REQUIRED_LEVELS ∧ bW.asks.length = REQUIRED_LEVELS ∧
     bW.bids.Pairwise (fun x y => y.price < x.price) ∧
     bW.asks.Pairwise (fun x y => x.price < y.price) ∧
     (bW.bids.map OrderBookLevel.price).Nodup ∧
     (bW.asks.map OrderBookLevel.price).Nodup ∧
     (∀ x ∈ bW.bids, 0 < x.volume) ∧ (∀ x ∈ bW.asks, 0 < x.volume) ∧
     (∀ bk : Book, (∃ e, validateOrderBookState bk = .error e) ↔
       ¬(bk.bids.length = REQUIRED_LEVELS ∧ bk.asks.length = REQUIRED_LEVELS))) :=
  ⟨snapW_bids_ne, snapW_asks_ne, snapW_run,
   orderbook_update_invariants snapW [] bW snapW_bids_ne snapW_asks_ne snapW_run⟩

/-- A snapshot whose first two bid rows share the price 499 (row `i` has
price `500 - max i 1`), with 400 rows per side and all volumes 1. -/
def snapC4 : BookFrame :=
  { bids := (List.range REQUIRED_LEVELS).map fun (i : ℕ) =>
      (((500 : ℚ) - ((max i 1 : ℕ) : ℚ)), (1 : ℚ), (1 : ℚ)),
    asks := (List.range REQUIRED_LEVELS).map fun (i : ℕ) =>
      (((600 : ℚ) + (i : ℚ)), (1 : ℚ), (1 : ℚ)) }

theorem snapC4_bids_eq : snapC4.bids =
    (List.range REQUIRED_LEVELS).map fun (i : ℕ) =>
      (((500 : ℚ) - ((max i 1 : ℕ) : ℚ)), (1 : ℚ), (1 : ℚ)) := rfl

theorem snapC4_asks_eq : snapC4.asks =
    (List.range REQUIRED_LEVELS).map fun (i : ℕ) =>
      (((600 : ℚ) + (i : ℚ)), (1 : ℚ), (1 : ℚ)) := rfl

theorem snapC4_bids_filter :
    snapC4.bids.filter (fun r => r.2.1 > 0) = snapC4.bids := by
  rw [List.filter_eq_self]
  intro r hr
  rw [snapC4_bids_eq] at hr
  rcases List.mem_map.mp hr with ⟨i, _, rfl⟩
  norm_num

theorem snapC4_asks_filter :
    snapC4.asks.filter (fun r => r.2.1 > 0) = snapC4.asks := by
  rw [List.filter_eq_self]
  intro r hr
  rw [snapC4_asks_eq] at hr
  rcases List.mem_map.mp hr with ⟨i, _, rfl⟩
  norm_num

/-- The book produced by the duplicated snapshot. -/
def bC4 : Book :=
  ⟨((snapC4.bids.filter fun r => r.2.1 > 0).map toLevel).mergeSort
      (fun a b => !(decide (b.price > a.price))),
   ((snapC4.asks.filter fun r => r.2.1 > 0).map toLevel).mergeSort
      (fun a b => !(decide (b.price < a.price)))⟩

theorem bC4_bids_length : bC4.bids.length = REQUIRED_LEVELS := by
  show (((snapC4.bids.filter fun r => r.2.1 > 0).map toLevel).mergeSort _).length = _
  rw [List.length_mergeSort, List.length_map, snapC4_bids_filter, snapC4_bids_eq,
    List.length_map, List.length_range]

theorem bC4_asks_length : bC4.asks.length = REQUIRED_LEVELS := by
  show (((snapC4.asks.filter fun r => r.2.1 > 0).map toLevel).mergeSort _).length = _
  rw [List.length_mergeSort, List.length_map, snapC4_asks_filter, snapC4_asks_eq,
    List.length_map, List.length_range]

theorem snapC4_ok : handleSnapshot snapC4 = .ok bC4 := by
  rw [handleSnapshot]
  show validateOrderBookState bC4 = .ok bC4
  rw [validateOrderBookState, if_pos ⟨bC4_bids_length, bC4_asks_length⟩]

/-- **C4** (counterexample to the claim as stated): the snapshot
`snapC4` is successfully applied — `validateOrderBookState` sees 400
rows per side and accepts — yet the resulting bid side carries the price
499 twice, so it has duplicate prices and is not strictly descending:
the claimed invariant needs a distinct-prices precondition on the
snapshot. -/
theorem orderbook_duplicate_snapshot_counterexample :
    ∃ b, handleSnapshot snapC4 = .ok b ∧
      ¬ (b.bids.map OrderBookLevel.price).Nodup ∧
      ¬ b.bids.Pairwise fun x y => y.price < x.price := by
  have hnd : ¬ (bC4.bids.map OrderBookLevel.price).Nodup := by
    intro hnodup
    have hperm : bC4.bids.Perm ((snapC4.bids.filter fun r => r.2.1 > 0).map toLevel) :=
      List.mergeSort_perm _ _
    have h2 : (((snapC4.bids.filter fun r => r.2.1 > 0).map toLevel).map
        OrderBookLevel.price).Nodup :=
      ((hperm.map OrderBookLevel.price).nodup_iff).mp hnodup
    rw [snapC4_bids_filter, snapC4_bids_eq, List.map_map, List.map_map] at h2
    have h01 := List.pairwise_iff_getElem.mp h2 0 1
      (by rw [List.length_map, List.length_range]; norm_num [REQUIRED_LEVELS])
      (by rw [List.length_map, List.length_range]; norm_num [REQUIRED_LEVELS])
      (by omega)
    apply h01
    rw [List.getElem_map, List.getElem_map, List.getElem_range, List.getElem_range]
    norm_num
  refine ⟨bC4, snapC4_ok, hnd, ?_⟩
  intro hpw
  apply hnd
  show (bC4.bids.map OrderBookLevel.price).Pairwise (· ≠ ·)
  rw [List.pairwise_map]
  exact hpw.imp fun h => ne_of_gt h

end okx_orderbook
